import Mathlib

/-!
# Airwin2Rack hosting module (`src/Module.cpp`)

A shallow embedding of `AW2RModule`: the static effect registry, the
`forceSelect` / `resetCount` atomics, `resetAirwindowTo`, and the per-frame
`process` routine with its 4-frame block buffer.

Conventions of the embedding

* `float` samples are an abstract type `F`; the two multiplications `process`
  performs on them (`* 0.2` on the way in, `* 5` on the way out) are the fields
  of `SampleOps`.
* The effect object behind `std::unique_ptr<Airwin2RackBase>` is a value of an
  abstract state type `U`; its virtual methods are the fields of
  `Airwin2RackBase`.
* `int` / `int32_t` values are `Int`; the atomic increment wraps (`wrap32`).
  The two buffer positions `inPos` and `outPos`, which are only ever reset to `0`
  and incremented, are `Nat`.
* An unchecked index outside its container, a null dereference and a failed
  `assert` do not return: they are the `Fault` results.
* `compare_exchange_weak` may fail spuriously; whether it does in a given `process`
  call is part of what the environment supplies to that call (`Ports.casFails`).
* `process` additionally returns two lists of calls (`Call`), each in the order made:
  `calls`, the calls in its own body (`resetAirwindowTo`, `airwin->setParameter`,
  `airwin->processReplacing`), and `unitCalls`, every call received by the unit,
  including the `getParameterName` / `getParameter` calls made inside `resetAirwindowTo`.
* The registry is the static `std::vector<awReg>`; it is passed as an argument.
-/

namespace AW2R

/-- Ways in which a routine of the module fails to return normally. -/
inductive Fault where
  /-- An `assert(...)` did not hold: the process is aborted. -/
  | assertion
  /-- An unchecked `operator[]` outside the container: undefined behaviour. -/
  | outOfBounds
  /-- A call through the empty `std::unique_ptr`: undefined behaviour. -/
  | nullDeref
  deriving DecidableEq, Repr

/-- Value of `static constexpr int maxParams{14}`. -/
def maxParams : Nat := 14

/-- Value of `static constexpr int block{4}`. -/
def block : Nat := 4

/-- Arithmetic on `float` samples used by the module, kept abstract. -/
structure SampleOps (F : Type) where
  /-- The value `0` (`memset`, `configParam` default). -/
  zero : F
  /-- The map `v ↦ v * 0.2` stored into a `float`. -/
  inGain : F → F
  /-- The map `v ↦ v * 5`. -/
  outGain : F → F

/-- Interface of `Airwin2RackBase` (declared in `airwin2rackbase.h`), over unit states `U`.
`processReplacing u inL inR n` reads `n` frames per channel and yields the new unit state
together with the sample it writes to `out[0][j]` and `out[1][j]` for each `j < n`. -/
structure Airwin2RackBase (F U : Type) where
  getParameterName : U → Nat → String
  getParameter : U → Nat → F
  setParameter : U → Nat → F → U
  processReplacing : U → List F → List F → Nat → U × (Nat → F) × (Nat → F)

/-- Entry of the registry, `struct awReg`. -/
structure awReg (U : Type) where
  name : String
  nParams : Int
  generator : Unit → U

/-- Two's-complement wrap of an integer into the `int32_t` range. -/
def wrap32 (x : Int) : Int := (x + 2 ^ 31) % 2 ^ 32 - 2 ^ 31

/-- Static `registerAirwindow`: `emplace_back` followed by `return registry.size()`
(converted to `int`). Yields the updated registry and the returned integer. -/
def registerAirwindow {U : Type} (registry : List (awReg U)) (r : awReg U) :
    List (awReg U) × Int :=
  let registry1 := registry ++ [r]
  (registry1, wrap32 (registry1.length : Int))

/-- A call made during `process`: the module's own `resetAirwindowTo`, or one of the four
methods of the unit. `processReplacing` also records the samples per channel the unit wrote
to the output buffer. -/
inductive Call (F : Type) where
  | resetAirwindowTo (registryIdx : Int)
  | getParameterName (index : Nat)
  | getParameter (index : Nat)
  | setParameter (index : Nat) (value : F)
  | processReplacing (inL inR : List F) (sampleFrames : Nat) (outL outR : List F)
  deriving DecidableEq, Repr

/-- Data members of `AW2RModule` (with the `paramQuantities` of `rack::Module`).
`indat` and `outdat` are the flat arrays; `in[c][j]` is `indat[c * block + j]`. -/
structure AW2RModule (F U : Type) where
  airwin : Option U
  forceSelect : Int
  resetCount : Int
  selectedFX : String
  nParams : Int
  /-- Name and default value of each configured parameter quantity. -/
  paramQuantities : List (String × F)
  indat : List F
  outdat : List F
  inPos : Nat
  outPos : Nat

/-- What the environment presents to one `process` call: the summed input voltages, the
knob values `params[PARAM_0 + i].getValue()` (the host allocates `NUM_PARAMS` of them), and
whether the `compare_exchange_weak` of this call fails spuriously. -/
structure Ports (F : Type) where
  inputL : F
  inputR : F
  params : Nat → F
  casFails : Bool

/-- Result of one `process` call: the module afterwards, the output pair, the calls made
in the body of `process`, and all calls received by the unit (those of the body and those
made inside `resetAirwindowTo`). -/
structure Step (F U : Type) where
  next : AW2RModule F U
  outputL : F
  outputR : F
  calls : List (Call F)
  unitCalls : List (Call F)

section Model

variable {F U : Type}

/-- The operation `std::atomic<int32_t>::compare_exchange_weak(expected, desired)` on an
atomic holding `cur`: success flag, new value of the atomic, new value of `expected`. When
`cur` equals `expected` the exchange succeeds unless it fails spuriously; every failure
stores nothing and loads `cur` into `expected`. -/
def compare_exchange_weak (spurious : Bool) (cur expected desired : Int) : Bool × Int × Int :=
  if cur = expected ∧ spurious = false then (true, desired, expected) else (false, cur, cur)

/-- Unchecked write `xs[i] = v`. -/
def storeAt (xs : List F) (i : Nat) (v : F) : Except Fault (List F) :=
  if i < xs.length then .ok (xs.set i v) else .error .outOfBounds

/-- Unchecked read `xs[i]`. -/
def loadAt (xs : List F) (i : Nat) : Except Fault F :=
  match xs[i]? with
  | some v => .ok v
  | none => .error .outOfBounds

/-- Body of the loop in `resetAirwindowTo` over the given indices: the name and default
value of `paramQuantities[i]` are taken from the unit; yields the quantities and the calls
made on the unit. -/
def nameLoop (ops : Airwin2RackBase F U) (u : U) :
    List Nat → List (String × F) → Except Fault (List (String × F) × List (Call F))
  | [], pq => .ok (pq, [])
  | i :: rest, pq =>
    if i < pq.length then
      match nameLoop ops u rest (pq.set i (ops.getParameterName u i, ops.getParameter u i)) with
      | .error e => .error e
      | .ok (pq1, cs) => .ok (pq1, Call.getParameterName i :: Call.getParameter i :: cs)
    else .error .outOfBounds

/-- Method `resetAirwindowTo(registryIdx)`: the module it leaves and the calls it made on
the new unit. -/
def resetAirwindowToTraced (ops : Airwin2RackBase F U) (registry : List (awReg U))
    (registryIdx : Int) (m : AW2RModule F U) :
    Except Fault (AW2RModule F U × List (Call F)) :=
  if registryIdx < 0 then .error .outOfBounds else
  match registry[registryIdx.toNat]? with
  | none => .error .outOfBounds
  | some r =>
    let airwin := r.generator ()
    match nameLoop ops airwin (List.range r.nParams.toNat) m.paramQuantities with
    | .error e => .error e
    | .ok (pq, cs) =>
      .ok ({ m with
             selectedFX := r.name
             airwin := some airwin
             nParams := r.nParams
             paramQuantities := pq
             resetCount := wrap32 (m.resetCount + 1) }, cs)

/-- Method `resetAirwindowTo(registryIdx)`, as a map on module states. -/
def resetAirwindowTo (ops : Airwin2RackBase F U) (registry : List (awReg U))
    (registryIdx : Int) (m : AW2RModule F U) : Except Fault (AW2RModule F U) :=
  (resetAirwindowToTraced ops registry registryIdx m).map Prod.fst

/-- Member initialisers and the constructor body up to (not including) `resetAirwindowTo(0)`. -/
def AW2RModule.init (fl : SampleOps F) : AW2RModule F U where
  airwin := none
  forceSelect := -1
  resetCount := 0
  selectedFX := ""
  nParams := 0
  paramQuantities := (List.range maxParams).map (fun i => ("Param " ++ toString i, fl.zero))
  indat := List.replicate (2 * block) fl.zero
  outdat := List.replicate (2 * block) fl.zero
  inPos := 0
  outPos := 0

/-- Constructor `AW2RModule()`. -/
def AW2RModule.ctor (ops : Airwin2RackBase F U) (fl : SampleOps F)
    (registry : List (awReg U)) : Except Fault (AW2RModule F U) :=
  if registry.isEmpty then .error .assertion
  else resetAirwindowTo ops registry 0 (AW2RModule.init fl)

/-- Loop `for (i < nParams) airwin->setParameter(i, params[PARAM_0 + i].getValue())`
over the given indices; yields the unit and the calls made. -/
def paramLoop (ops : Airwin2RackBase F U) (params : Nat → F) :
    List Nat → U → Except Fault (U × List (Call F))
  | [], u => .ok (u, [])
  | i :: rest, u =>
    if i < maxParams then
      match paramLoop ops params rest (ops.setParameter u i (params i)) with
      | .error e => .error e
      | .ok (u1, cs) => .ok (u1, Call.setParameter i (params i) :: cs)
    else .error .outOfBounds

/-- First statement of `process`: the compare-exchange on `forceSelect` and, when it
fails, `resetAirwindowTo(resetTo)`. Yields the module, the calls of the body of `process`
and the calls made on the unit. -/
def claimSelection (ops : Airwin2RackBase F U) (registry : List (awReg U))
    (spurious : Bool) (m : AW2RModule F U) :
    Except Fault (AW2RModule F U × List (Call F) × List (Call F)) :=
  match compare_exchange_weak spurious m.forceSelect (-1) (-1) with
  | (true, fs, _) => .ok ({ m with forceSelect := fs }, [], [])
  | (false, fs, resetTo) =>
    match resetAirwindowToTraced ops registry resetTo { m with forceSelect := fs } with
    | .error e => .error e
    | .ok (m1, qs) => .ok (m1, [Call.resetAirwindowTo resetTo], qs)

/-- Block-boundary part of `process` (`if (inPos == block) ...`), entered with the
already incremented `inPos`. -/
def blockBoundary (ops : Airwin2RackBase F U) (p : Ports F)
    (m : AW2RModule F U) : Except Fault (AW2RModule F U × List (Call F)) :=
  if m.inPos = block then
    match m.airwin with
    | none => .error .nullDeref
    | some u =>
      match paramLoop ops p.params (List.range m.nParams.toNat) u with
      | .error e => .error e
      | .ok (u1, cs) =>
        let inL := m.indat.take block
        let inR := (m.indat.drop block).take block
        let r := ops.processReplacing u1 inL inR block
        let outL := (List.range block).map r.2.1
        let outR := (List.range block).map r.2.2
        .ok ({ m with airwin := some r.1, outdat := outL ++ outR, outPos := 0, inPos := 0 },
             cs ++ [Call.processReplacing inL inR block outL outR])
  else .ok (m, [])

/-- Statements of `process` after the selection check: store the frame, run the block
boundary, emit one output frame. -/
def frameBody (ops : Airwin2RackBase F U) (fl : SampleOps F)
    (m1 : AW2RModule F U) (p : Ports F) : Except Fault (Step F U) := do
  let indat1 ← storeAt m1.indat m1.inPos (fl.inGain p.inputL)
  let indat2 ← storeAt indat1 (block + m1.inPos) (fl.inGain p.inputR)
  let m2 := { m1 with indat := indat2, inPos := m1.inPos + 1 }
  let (m3, cs2) ← blockBoundary ops p m2
  let l ← loadAt m3.outdat m3.outPos
  let r ← loadAt m3.outdat (block + m3.outPos)
  pure { next := { m3 with outPos := m3.outPos + 1 }
         outputL := fl.outGain l
         outputR := fl.outGain r
         calls := cs2
         unitCalls := cs2 }

/-- Method `process`, called once per audio frame. -/
def process (ops : Airwin2RackBase F U) (fl : SampleOps F) (registry : List (awReg U))
    (m : AW2RModule F U) (p : Ports F) : Except Fault (Step F U) := do
  let (m1, cs1, qs) ← claimSelection ops registry p.casFails m
  let s ← frameBody ops fl m1 p
  pure { s with calls := cs1 ++ s.calls, unitCalls := qs ++ s.unitCalls }

/-- Successive `process` calls, one per element of `ps`; yields the final module and,
per call, the output pair and the calls made. -/
def run (ops : Airwin2RackBase F U) (fl : SampleOps F) (registry : List (awReg U)) :
    AW2RModule F U → List (Ports F) → Except Fault (AW2RModule F U × List ((F × F) × List (Call F)))
  | m, [] => .ok (m, [])
  | m, p :: ps =>
    match process ops fl registry m p with
    | .error e => .error e
    | .ok s =>
      match run ops fl registry s.next ps with
      | .error e => .error e
      | .ok (m1, rest) => .ok (m1, ((s.outputL, s.outputR), s.calls) :: rest)

/-- Modelled from the spec: `requestSwap(index)`, which the source does not define;
a store of the index into the atomic `forceSelect`. -/
def requestSwap (index : Int) (m : AW2RModule F U) : AW2RModule F U :=
  { m with forceSelect := index }

/-- Shape of the block buffer and unit of a constructed module between two `process`
calls: the unit exists, its parameter count fits the host's `maxParams` knobs, both sample
arrays have their `2 * block` cells, `inPos` is inside the block and `outPos` has not run
ahead of it. -/
def Buffered (m : AW2RModule F U) : Prop :=
  m.airwin.isSome = true ∧ m.nParams ≤ maxParams ∧
  m.indat.length = 2 * block ∧ m.outdat.length = 2 * block ∧
  m.inPos < block ∧ m.outPos ≤ m.inPos + 1

/-- A buffered module with no selection pending. -/
def Ready (m : AW2RModule F U) : Prop :=
  m.forceSelect = -1 ∧ Buffered m

/-- A buffered module with its `maxParams` parameter quantities whose `forceSelect` is
either `-1` or the index of a registry entry with at most `maxParams` parameters. -/
def Configured (registry : List (awReg U)) (m : AW2RModule F U) : Prop :=
  Buffered m ∧ m.paramQuantities.length = maxParams ∧
  (m.forceSelect = -1 ∨
    ∃ r, 0 ≤ m.forceSelect ∧ registry[m.forceSelect.toNat]? = some r ∧ r.nParams ≤ maxParams)

/-- Whether a logged call is a `processReplacing` call. -/
def Call.isProcessReplacing : Call F → Bool
  | .processReplacing _ _ _ _ _ => true
  | _ => false

/-- All calls of a run, in order: the calls of its first frame, then of its second, ... -/
def callsOf : List ((F × F) × List (Call F)) → List (Call F)
  | [] => []
  | o :: os => o.2 ++ callsOf os

/-- The `processReplacing` calls of a run, in order. -/
def processReplacingCalls (outs : List ((F × F) × List (Call F))) : List (Call F) :=
  (callsOf outs).filter Call.isProcessReplacing

/-- The calls `getParameterName(i)`, `getParameter(i)` for each index of the list, in order. -/
def queryCalls : List Nat → List (Call F)
  | [] => []
  | i :: rest => Call.getParameterName i :: Call.getParameter i :: queryCalls rest

/-- Entry that `process` logs first when it finds `forceSelect` different from `-1`. -/
def selectionCalls (m : AW2RModule F U) : List (Call F) :=
  if m.forceSelect = -1 then [] else [Call.resetAirwindowTo m.forceSelect]

end Model

/-! ## A concrete instance, used to evaluate the model -/

/-- State of a two-parameter test unit: which registry entry built it and its two parameters. -/
structure Probe where
  tag : Nat
  a : Int
  b : Int
  deriving DecidableEq, Repr

/-- Methods of the test unit: parameters 0 and 1 are stored, every other index is ignored
(as in the `switch` of the generated effects); a block is copied through with the
parameters added. -/
def probeOps : Airwin2RackBase Int Probe where
  getParameterName := fun _ i => if i = 0 then "A" else if i = 1 then "B" else ""
  getParameter := fun u i => if i = 0 then u.a else if i = 1 then u.b else 0
  setParameter := fun u i v => if i = 0 then { u with a := v } else if i = 1 then { u with b := v } else u
  processReplacing := fun u inL inR _ => (u, fun j => inL.getD j 0 + u.a, fun j => inR.getD j 0 + u.b)

/-- Integer stand-in for the sample arithmetic. -/
def intOps : SampleOps Int where
  zero := 0
  inGain := fun v => 2 * v
  outGain := fun v => 5 * v

/-- Registry entry `A`, one parameter. -/
def entryA : awReg Probe where
  name := "A"
  nParams := 1
  generator := fun _ => { tag := 0, a := 0, b := 0 }

/-- Registry entry `B`, two parameters. -/
def entryB : awReg Probe where
  name := "B"
  nParams := 2
  generator := fun _ => { tag := 1, a := 0, b := 0 }

/-- Registry of the two-entry scenario: `A` with one parameter, `B` with two. -/
def regAB : List (awReg Probe) := [entryA, entryB]

/-- Host ports carrying `v` on the left input, `-v` on the right, and all knobs at `0`, for a
call whose compare-exchange does not fail spuriously. -/
def portsOf (v : Int) : Ports Int where
  inputL := v
  inputR := -v
  params := fun _ => 0
  casFails := false

/-- The module built by the constructor over `regAB`, as computed by `AW2RModule.ctor`. -/
def freshAB : AW2RModule Int Probe where
  airwin := some { tag := 0, a := 0, b := 0 }
  forceSelect := -1
  resetCount := 1
  selectedFX := "A"
  nParams := 1
  paramQuantities := ("A", 0) :: (List.range 13).map (fun i => ("Param " ++ toString (i + 1), 0))
  indat := List.replicate 8 0
  outdat := List.replicate 8 0
  inPos := 0
  outPos := 0

/-- The first `n` frames of a test signal: frame `i` (from `0`) carries `i + 1`. -/
def testFrames (n : Nat) : List (Ports Int) :=
  (List.range n).map (fun i => portsOf ((i : Int) + 1))

/-- The module `freshAB` after the three frames `portsOf 1`, `portsOf 2`, `portsOf 3`:
one frame short of a full block. -/
def threeInAB : AW2RModule Int Probe :=
  { freshAB with indat := [2, 4, 6, 0, -2, -4, -6, 0], inPos := 3, outPos := 3 }

/-- The module `freshAB` after the frame `portsOf 1`, with a request for entry `1` stored. -/
def oneInPendingAB : AW2RModule Int Probe :=
  { freshAB with indat := [2, 0, 0, 0, -2, 0, 0, 0], inPos := 1, outPos := 1, forceSelect := 1 }

/-- The module `freshAB` after the three frames `portsOf 1`, `portsOf 2`, `portsOf 3`, with
a request for entry `1` stored. -/
def threeInPendingAB : AW2RModule Int Probe :=
  { threeInAB with forceSelect := 1 }

/-! ## Basic facts about the helpers -/

section Lemmas

variable {F U : Type}

theorem wrap32_of_range (x : Int) (h0 : -2 ^ 31 ≤ x) (h1 : x < 2 ^ 31) : wrap32 x = x := by
  unfold wrap32
  norm_num at h0 h1 ⊢
  omega

theorem nameLoop_ok_iff (ops : Airwin2RackBase F U) (u : U) :
    ∀ (is : List Nat) (pq : List (String × F)),
      (∃ res, nameLoop ops u is pq = .ok res) ↔ ∀ i ∈ is, i < pq.length := by
  intro is
  induction is with
  | nil => intro pq; simp [nameLoop]
  | cons i rest ih =>
    intro pq
    by_cases h : i < pq.length
    · have ih1 := ih (pq.set i (ops.getParameterName u i, ops.getParameter u i))
      simp only [List.length_set] at ih1
      simp only [nameLoop, h, if_true, List.mem_cons, forall_eq_or_imp, true_and, ← ih1]
      cases nameLoop ops u rest (pq.set i (ops.getParameterName u i, ops.getParameter u i)) with
      | error e => simp
      | ok res => simp
    · simp only [nameLoop, h, if_false, List.mem_cons, forall_eq_or_imp, false_and, iff_false,
        not_exists]
      intro res hres
      cases hres

/-- A completed `nameLoop` keeps the number of quantities and has made one
`getParameterName`, `getParameter` pair of calls per index, in order. -/
theorem nameLoop_ok (ops : Airwin2RackBase F U) (u : U) :
    ∀ (is : List Nat) (pq pq1 : List (String × F)) (cs : List (Call F)),
      nameLoop ops u is pq = .ok (pq1, cs) → pq1.length = pq.length ∧ cs = queryCalls is := by
  intro is
  induction is with
  | nil =>
    intro pq pq1 cs h
    simp only [nameLoop, Except.ok.injEq, Prod.mk.injEq] at h
    obtain ⟨rfl, rfl⟩ := h
    exact ⟨rfl, rfl⟩
  | cons i rest ih =>
    intro pq pq1 cs h
    unfold nameLoop at h
    split at h
    · split at h
      · cases h
      · rename_i pq2 cs2 h2
        cases h
        obtain ⟨hlen, hcs⟩ := ih _ _ _ h2
        exact ⟨by simpa using hlen, by simp [queryCalls, hcs]⟩
    · cases h

/-- Inversion of a successful `resetAirwindowTo`, with the calls it made. -/
theorem resetAirwindowToTraced_ok (ops : Airwin2RackBase F U) (registry : List (awReg U))
    (registryIdx : Int) (m m1 : AW2RModule F U) (qs : List (Call F))
    (h : resetAirwindowToTraced ops registry registryIdx m = .ok (m1, qs)) :
    ∃ r pq, 0 ≤ registryIdx ∧ registry[registryIdx.toNat]? = some r ∧
      nameLoop ops (r.generator ()) (List.range r.nParams.toNat) m.paramQuantities
        = .ok (pq, qs) ∧
      m1 = { m with
             selectedFX := r.name
             airwin := some (r.generator ())
             nParams := r.nParams
             paramQuantities := pq
             resetCount := wrap32 (m.resetCount + 1) } := by
  unfold resetAirwindowToTraced at h
  split at h
  · cases h
  · rename_i hneg
    split at h
    · cases h
    · rename_i r hr
      simp only at h
      split at h
      · cases h
      · rename_i pq cs hpq
        refine ⟨r, pq, by omega, hr, ?_, ?_⟩
        · cases h
          exact hpq
        · cases h
          rfl

theorem resetAirwindowTo_eq (ops : Airwin2RackBase F U) (registry : List (awReg U))
    (registryIdx : Int) (m m1 : AW2RModule F U) :
    resetAirwindowTo ops registry registryIdx m = .ok m1 ↔
      ∃ qs, resetAirwindowToTraced ops registry registryIdx m = .ok (m1, qs) := by
  unfold resetAirwindowTo
  cases resetAirwindowToTraced ops registry registryIdx m with
  | error e => simp [Except.map]
  | ok res =>
    obtain ⟨m2, qs⟩ := res
    simp [Except.map]

/-- Inversion of a successful `resetAirwindowTo`. -/
theorem resetAirwindowTo_ok (ops : Airwin2RackBase F U) (registry : List (awReg U))
    (registryIdx : Int) (m m1 : AW2RModule F U)
    (h : resetAirwindowTo ops registry registryIdx m = .ok m1) :
    ∃ r pq qs, 0 ≤ registryIdx ∧ registry[registryIdx.toNat]? = some r ∧
      nameLoop ops (r.generator ()) (List.range r.nParams.toNat) m.paramQuantities
        = .ok (pq, qs) ∧
      m1 = { m with
             selectedFX := r.name
             airwin := some (r.generator ())
             nParams := r.nParams
             paramQuantities := pq
             resetCount := wrap32 (m.resetCount + 1) } := by
  obtain ⟨qs, hq⟩ := (resetAirwindowTo_eq ops registry registryIdx m m1).mp h
  obtain ⟨r, pq, h0, hr, hloop, hm⟩ := resetAirwindowToTraced_ok ops registry _ _ _ _ hq
  exact ⟨r, pq, qs, h0, hr, hloop, hm⟩

/-! ## Registration -/

/-- C9 (as stated, refuted): registering `A` into the empty registry returns `1`, which is
not below the new count `1`, and position `1` of the new registry holds no entry. -/
theorem registerAirwindow_returns_count_not_index :
    (registerAirwindow ([] : List (awReg Probe)) entryA).2 = 1 ∧
    ¬ ((registerAirwindow ([] : List (awReg Probe)) entryA).2 <
        ((registerAirwindow ([] : List (awReg Probe)) entryA).1.length : Int)) ∧
    (registerAirwindow ([] : List (awReg Probe)) entryA).1[1]? = none := by
  refine ⟨rfl, ?_, rfl⟩
  decide

/-- C9 (amended): for a registry of fewer than `2^31 - 1` entries, `registerAirwindow registry e`
returns the new entry count `r = count()`, which has grown by exactly one; the entry `e` sits
at position `r - 1`, and every earlier position keeps its entry. -/
theorem registerAirwindow_appends_and_returns_count {U : Type} (registry : List (awReg U))
    (e : awReg U) (hsize : registry.length + 1 < 2 ^ 31) :
    (registerAirwindow registry e).2 = ((registerAirwindow registry e).1.length : Int) ∧
    (registerAirwindow registry e).1.length = registry.length + 1 ∧
    (registerAirwindow registry e).1[((registerAirwindow registry e).2 - 1).toNat]? = some e ∧
    ∀ i, i < registry.length → (registerAirwindow registry e).1[i]? = registry[i]? := by
  have hw : wrap32 ((registry.length : Int) + 1) = (registry.length : Int) + 1 := by
    apply wrap32_of_range
    · have : (0 : Int) ≤ registry.length := Int.ofNat_nonneg _
      norm_num
      omega
    · have h := hsize
      norm_num at h ⊢
      omega
  refine ⟨?_, ?_, ?_, ?_⟩
  · simp [registerAirwindow, hw]
  · simp [registerAirwindow]
  · simp [registerAirwindow, hw]
  · intro i hi
    simp [registerAirwindow, List.getElem?_append_left hi]

theorem registerAirwindow_appends_and_returns_count_witness :
    (registerAirwindow [entryA] entryB).2 = ((registerAirwindow [entryA] entryB).1.length : Int) ∧
    (registerAirwindow [entryA] entryB).1.length = [entryA].length + 1 ∧
    (registerAirwindow [entryA] entryB).1[((registerAirwindow [entryA] entryB).2 - 1).toNat]?
      = some entryB ∧
    ∀ i, i < [entryA].length → (registerAirwindow [entryA] entryB).1[i]? = [entryA][i]? :=
  registerAirwindow_appends_and_returns_count [entryA] entryB (by decide)

/-! ## Selecting an effect -/

/-- C3: for every valid index `0 ≤ registryIdx < registry.size()`, whenever
`resetAirwindowTo(registryIdx)` completes, the cached `nParams` is the entry's `nParams`,
`selectedFX` is the entry's `name`, and `airwin` is the unit made by the entry's `generator`;
and it completes exactly when the entry's `nParams` does not exceed the number of parameter
quantities of the module (`maxParams` on a constructed module). -/
theorem resetAirwindowTo_selects_entry (ops : Airwin2RackBase F U) (registry : List (awReg U))
    (registryIdx : Int) (r : awReg U) (m : AW2RModule F U)
    (h0 : 0 ≤ registryIdx) (_h1 : registryIdx < registry.length)
    (hr : registry[registryIdx.toNat]? = some r) :
    (∀ m1, resetAirwindowTo ops registry registryIdx m = .ok m1 →
        m1.nParams = r.nParams ∧ m1.selectedFX = r.name ∧ m1.airwin = some (r.generator ())) ∧
    ((∃ m1, resetAirwindowTo ops registry registryIdx m = .ok m1) ↔
        r.nParams ≤ (m.paramQuantities.length : Int)) := by
  constructor
  · intro m1 h
    obtain ⟨r1, pq, _, _, hr1, _, rfl⟩ := resetAirwindowTo_ok ops registry registryIdx m m1 h
    rw [hr] at hr1
    cases hr1
    exact ⟨rfl, rfl, rfl⟩
  · have hloop := nameLoop_ok_iff ops (r.generator ()) (List.range r.nParams.toNat)
      m.paramQuantities
    have hrange : (∀ i ∈ List.range r.nParams.toNat, i < m.paramQuantities.length) ↔
        r.nParams ≤ (m.paramQuantities.length : Int) := by
      constructor
      · intro h
        by_contra hc
        have := h m.paramQuantities.length (by simp at hc ⊢; omega)
        omega
      · intro h i hi
        simp at hi
        omega
    rw [← hrange, ← hloop]
    have hneg : ¬ registryIdx < 0 := by omega
    constructor
    · rintro ⟨m1, h⟩
      obtain ⟨r1, pq, qs, _, hr1, hn, _⟩ := resetAirwindowTo_ok ops registry registryIdx m m1 h
      rw [hr] at hr1
      cases hr1
      exact ⟨(pq, qs), hn⟩
    · rintro ⟨⟨pq, qs⟩, hn⟩
      simp [resetAirwindowTo, resetAirwindowToTraced, hneg, hr, hn, Except.map]

theorem resetAirwindowTo_selects_entry_witness :
    (∀ m1, resetAirwindowTo probeOps regAB 1 freshAB = .ok m1 →
        m1.nParams = entryB.nParams ∧ m1.selectedFX = entryB.name ∧
        m1.airwin = some (entryB.generator ())) ∧
    ((∃ m1, resetAirwindowTo probeOps regAB 1 freshAB = .ok m1) ↔
        entryB.nParams ≤ (freshAB.paramQuantities.length : Int)) :=
  resetAirwindowTo_selects_entry probeOps regAB 1 entryB freshAB (by decide) (by decide) rfl

/-! ## The selection handshake -/

/-- C1 (evaluation at the failing input): with entry `1` pending on the fresh two-entry
module, one `process` call swaps and returns with `forceSelect` still `1`; the second of two
calls, with no request in between, swaps again. -/
theorem process_leaves_selection_pending :
    (process probeOps intOps regAB (requestSwap 1 freshAB) (portsOf 1)).map
        (fun s => (s.next.forceSelect, s.calls)) = .ok (1, [Call.resetAirwindowTo 1]) ∧
    (run probeOps intOps regAB (requestSwap 1 freshAB) [portsOf 1, portsOf 2]).map
        (fun x => (x.1.forceSelect, x.2.map (fun o => o.2))) =
      .ok (1, [[Call.resetAirwindowTo 1], [Call.resetAirwindowTo 1]]) :=
  ⟨rfl, rfl⟩

/-- C2 (evaluation at the failing input): with `forceSelect` equal to the registry size `2`,
`process` reaches the unchecked `registry[2]`; the result is the undefined-behaviour fault,
not an assertion failure. -/
theorem process_out_of_range_selection_unchecked :
    process probeOps intOps regAB (requestSwap 2 freshAB) (portsOf 1) =
      .error Fault.outOfBounds ∧
    resetAirwindowTo probeOps regAB 2 freshAB = .error Fault.outOfBounds :=
  ⟨rfl, rfl⟩

/-- C4 (evaluation at the failing input): on the fresh two-entry module (`resetCount = 1`,
`inPos = 0`), one request for entry `1` followed by the four `process` calls up to the block
boundary leaves `resetCount = 5`: four increments, one per call. -/
theorem one_request_increments_resetCount_four_times :
    freshAB.resetCount = 1 ∧
    (run probeOps intOps regAB (requestSwap 1 freshAB)
        [portsOf 1, portsOf 2, portsOf 3, portsOf 4]).map
      (fun x => (x.1.resetCount, x.1.inPos, x.2.map (fun o => o.2.head?))) =
      .ok (5, 0, [some (Call.resetAirwindowTo 1), some (Call.resetAirwindowTo 1),
        some (Call.resetAirwindowTo 1), some (Call.resetAirwindowTo 1)]) :=
  ⟨rfl, rfl⟩

/-- C5 (as stated, refuted): the constructor over the two-entry registry yields `freshAB`;
one `process` call later `inPos` is `1`; a request for entry `1` stored then makes the next
`process` call run `resetAirwindowTo(1)`, with the block one quarter filled. -/
theorem swap_performed_mid_block :
    AW2RModule.ctor probeOps intOps regAB = .ok freshAB ∧
    (process probeOps intOps regAB freshAB (portsOf 1)).map
        (fun s => requestSwap 1 s.next) = .ok oneInPendingAB ∧
    oneInPendingAB.inPos = 1 ∧
    (process probeOps intOps regAB oneInPendingAB (portsOf 2)).map
        (fun s => (s.calls, s.next.selectedFX)) = .ok ([Call.resetAirwindowTo 1], "B") :=
  ⟨rfl, rfl, rfl, rfl⟩

/-- C10 (as stated, refuted): the constructor over the two-entry registry yields `freshAB`,
and after seven `process` calls `outPos` is `4`, which is not below `block`. -/
theorem outPos_reaches_block :
    AW2RModule.ctor probeOps intOps regAB = .ok freshAB ∧
    (run probeOps intOps regAB freshAB
      [portsOf 1, portsOf 2, portsOf 3, portsOf 4, portsOf 5, portsOf 6, portsOf 7]).map
      (fun x => (x.1.inPos, x.1.outPos)) = .ok (3, 4) ∧
    ¬ (4 < block) :=
  ⟨rfl, rfl, by decide⟩

/-! ## One `process` call -/

theorem claimSelection_idle (ops : Airwin2RackBase F U) (registry : List (awReg U))
    (m : AW2RModule F U) (h : m.forceSelect = -1) :
    claimSelection ops registry false m = .ok (m, [], []) := by
  cases m
  simp_all [claimSelection, compare_exchange_weak]

/-- On a module with nothing pending, a spurious failure of the exchange leads to
`resetAirwindowTo(-1)` and so to the unchecked `registry[-1]`. -/
theorem claimSelection_spurious (ops : Airwin2RackBase F U) (registry : List (awReg U))
    (m : AW2RModule F U) (h : m.forceSelect = -1) :
    claimSelection ops registry true m = .error Fault.outOfBounds := by
  simp [claimSelection, compare_exchange_weak, h, resetAirwindowToTraced]

theorem claimSelection_pending (ops : Airwin2RackBase F U) (registry : List (awReg U))
    (spurious : Bool) (m m1 : AW2RModule F U) (qs : List (Call F)) (h : m.forceSelect ≠ -1)
    (hreset : resetAirwindowToTraced ops registry m.forceSelect m = .ok (m1, qs)) :
    claimSelection ops registry spurious m =
      .ok (m1, [Call.resetAirwindowTo m.forceSelect], qs) := by
  simp only [claimSelection, compare_exchange_weak, h, false_and, if_false]
  rw [hreset]

/-- The loop `paramLoop` completes when every index is below `maxParams`, with one
`setParameter i (params i)` per index, in order. -/
theorem paramLoop_total (ops : Airwin2RackBase F U) (params : Nat → F) :
    ∀ (is : List Nat) (u : U), (∀ i ∈ is, i < maxParams) →
      ∃ u1, paramLoop ops params is u =
        .ok (u1, is.map (fun i => Call.setParameter i (params i))) := by
  intro is
  induction is with
  | nil => intro u _; exact ⟨u, rfl⟩
  | cons i rest ih =>
    intro u h
    have hi : i < maxParams := h i (by simp)
    obtain ⟨u1, h1⟩ := ih (ops.setParameter u i (params i)) (fun j hj => h j (by simp [hj]))
    exact ⟨u1, by simp [paramLoop, hi, h1]⟩

/-- The frame part of `process` on a buffered module that does not complete a block. -/
theorem frameBody_mid (ops : Airwin2RackBase F U) (fl : SampleOps F)
    (m : AW2RModule F U) (p : Ports F) (hB : Buffered m) (h : m.inPos + 1 ≠ block) :
    ∃ l r, m.outdat[m.outPos]? = some l ∧ m.outdat[block + m.outPos]? = some r ∧
      frameBody ops fl m p = .ok
        { next := { m with
                    indat := (m.indat.set m.inPos (fl.inGain p.inputL)).set (block + m.inPos)
                      (fl.inGain p.inputR)
                    inPos := m.inPos + 1
                    outPos := m.outPos + 1 }
          outputL := fl.outGain l
          outputR := fl.outGain r
          calls := []
          unitCalls := [] } := by
  obtain ⟨hu, hn, hin, hout, hip, hop⟩ := hB
  have h1 : m.outPos < m.outdat.length := by simp [block] at *; omega
  have h2 : block + m.outPos < m.outdat.length := by simp [block] at *; omega
  refine ⟨m.outdat[m.outPos], m.outdat[block + m.outPos], by simp [h1], by simp [h2], ?_⟩
  have hs1 : m.inPos < m.indat.length := by simp [block] at *; omega
  have hs2 : block + m.inPos < m.indat.length := by simp [block] at *; omega
  simp [frameBody, bind, Except.bind, pure, Except.pure,
    storeAt, hs1, hs2, blockBoundary, h, loadAt, h1, h2]

/-- The frame part of `process` on a buffered module that completes a block. -/
theorem frameBody_full (ops : Airwin2RackBase F U) (fl : SampleOps F)
    (m : AW2RModule F U) (p : Ports F) (u : U) (hB : Buffered m) (h : m.inPos + 1 = block)
    (hu : m.airwin = some u) :
    ∃ u1 indat2 inL inR u2 outL outR,
      paramLoop ops p.params (List.range m.nParams.toNat) u =
        .ok (u1, (List.range m.nParams.toNat).map (fun i => Call.setParameter i (p.params i))) ∧
      indat2 = (m.indat.set m.inPos (fl.inGain p.inputL)).set (block + m.inPos)
        (fl.inGain p.inputR) ∧
      inL = indat2.take block ∧ inR = (indat2.drop block).take block ∧
      u2 = (ops.processReplacing u1 inL inR block).1 ∧
      outL = (List.range block).map (ops.processReplacing u1 inL inR block).2.1 ∧
      outR = (List.range block).map (ops.processReplacing u1 inL inR block).2.2 ∧
      frameBody ops fl m p = .ok
        { next := { m with
                    indat := indat2
                    airwin := some u2
                    outdat := outL ++ outR
                    inPos := 0
                    outPos := 1 }
          outputL := fl.outGain ((ops.processReplacing u1 inL inR block).2.1 0)
          outputR := fl.outGain ((ops.processReplacing u1 inL inR block).2.2 0)
          calls := (List.range m.nParams.toNat).map (fun i => Call.setParameter i (p.params i)) ++
            [Call.processReplacing inL inR block outL outR]
          unitCalls :=
            (List.range m.nParams.toNat).map (fun i => Call.setParameter i (p.params i)) ++
            [Call.processReplacing inL inR block outL outR] } := by
  obtain ⟨_, hn, hin, hout, hip, hop⟩ := hB
  have hs1 : m.inPos < m.indat.length := by simp [block] at *; omega
  have hs2 : block + m.inPos < m.indat.length := by simp [block] at *; omega
  obtain ⟨u1, hloop⟩ := paramLoop_total ops p.params (List.range m.nParams.toNat) u (by
    intro i hi
    simp [maxParams] at hi hn ⊢
    omega)
  refine ⟨u1, _, _, _, _, _, _, hloop, rfl, rfl, rfl, rfl, rfl, rfl, ?_⟩
  simp only [frameBody, bind, Except.bind, pure, Except.pure,
    storeAt, hs1, List.length_set, hs2, if_true,
    blockBoundary, h, hu, hloop, loadAt]
  rfl

/-- With nothing pending and no spurious failure, `process` is its frame part. -/
theorem process_idle (ops : Airwin2RackBase F U) (fl : SampleOps F) (registry : List (awReg U))
    (m : AW2RModule F U) (p : Ports F) (h : m.forceSelect = -1) (hc : p.casFails = false) :
    process ops fl registry m p = frameBody ops fl m p := by
  simp only [process, bind, Except.bind, pure, Except.pure, hc,
    claimSelection_idle ops registry m h]
  cases frameBody ops fl m p <;> rfl

/-- With nothing pending, a `process` call whose exchange fails spuriously does not return. -/
theorem process_spurious (ops : Airwin2RackBase F U) (fl : SampleOps F)
    (registry : List (awReg U)) (m : AW2RModule F U) (p : Ports F)
    (h : m.forceSelect = -1) (hc : p.casFails = true) :
    process ops fl registry m p = .error Fault.outOfBounds := by
  simp only [process, bind, Except.bind, hc, claimSelection_spurious ops registry m h]

/-- With a selection pending whose `resetAirwindowTo` completes, `process` is the frame part
on the new unit, with the `resetAirwindowTo` entry and its calls on the unit logged first. -/
theorem process_pending (ops : Airwin2RackBase F U) (fl : SampleOps F)
    (registry : List (awReg U)) (m m1 : AW2RModule F U) (qs : List (Call F)) (p : Ports F)
    (s : Step F U) (h : m.forceSelect ≠ -1)
    (hreset : resetAirwindowToTraced ops registry m.forceSelect m = .ok (m1, qs))
    (hframe : frameBody ops fl m1 p = .ok s) :
    process ops fl registry m p =
      .ok { s with calls := Call.resetAirwindowTo m.forceSelect :: s.calls
                   unitCalls := qs ++ s.unitCalls } := by
  simp only [process, bind, Except.bind, pure, Except.pure,
    claimSelection_pending ops registry p.casFails m m1 qs h hreset, hframe]
  rfl

/-- Summary of the frame part on a buffered module: it returns, keeps the module buffered,
leaves the selection state alone, and calls the unit only when it completes a block. -/
theorem frameBody_step (ops : Airwin2RackBase F U) (fl : SampleOps F)
    (m : AW2RModule F U) (p : Ports F) (hB : Buffered m) :
    ∃ s inL inR outL outR, frameBody ops fl m p = .ok s ∧ Buffered s.next ∧
      s.next.forceSelect = m.forceSelect ∧ s.next.paramQuantities = m.paramQuantities ∧
      s.next.nParams = m.nParams ∧ s.next.resetCount = m.resetCount ∧
      s.next.selectedFX = m.selectedFX ∧
      s.next.inPos = (if m.inPos + 1 = block then 0 else m.inPos + 1) ∧
      s.next.outPos = (if m.inPos + 1 = block then 1 else m.outPos + 1) ∧
      s.calls = (if m.inPos + 1 = block then
        (List.range m.nParams.toNat).map (fun i => Call.setParameter i (p.params i)) ++
          [Call.processReplacing inL inR block outL outR] else []) ∧
      s.unitCalls = s.calls := by
  by_cases h : m.inPos + 1 = block
  · have hu := hB.1
    obtain ⟨u, hu⟩ := Option.isSome_iff_exists.mp hu
    obtain ⟨u1, indat2, inL, inR, u2, outL, outR, _, hi2, _, _, _, hoL, hoR, hs⟩ :=
      frameBody_full ops fl m p u hB h hu
    refine ⟨_, inL, inR, outL, outR, hs, ?_, rfl, rfl, rfl, rfl, rfl, ?_, ?_, ?_, rfl⟩
    · obtain ⟨_, hn, hin, hout, hip, hop⟩ := hB
      refine ⟨rfl, hn, ?_, ?_, ?_, ?_⟩
      · simp [hi2, hin]
      · simp [hoL, hoR, block]
      · simp [block]
      · simp
    · simp [h]
    · simp [h]
    · simp [h]
  · obtain ⟨l, r, _, _, hs⟩ := frameBody_mid ops fl m p hB h
    refine ⟨_, [], [], [], [], hs, ?_, rfl, rfl, rfl, rfl, rfl, ?_, ?_, ?_, rfl⟩
    · obtain ⟨hu, hn, hin, hout, hip, hop⟩ := hB
      refine ⟨hu, hn, ?_, hout, ?_, ?_⟩
      · simp [hin]
      · simp [block] at *; omega
      · simp; omega
    · simp [h]
    · simp [h]
    · simp [h]

/-- On a configured module with a selection pending, `resetAirwindowTo(forceSelect)` completes
and installs the selected entry, querying name and default value of each of its parameters
on the new unit, and leaves the block buffer and `forceSelect` as they were. -/
theorem resetAirwindowTo_configured (ops : Airwin2RackBase F U) (registry : List (awReg U))
    (m : AW2RModule F U) (hC : Configured registry m) (h : m.forceSelect ≠ -1) :
    ∃ m1 r, resetAirwindowToTraced ops registry m.forceSelect m =
        .ok (m1, queryCalls (List.range r.nParams.toNat)) ∧
      registry[m.forceSelect.toNat]? = some r ∧
      Buffered m1 ∧ m1.paramQuantities.length = maxParams ∧
      m1.forceSelect = m.forceSelect ∧ m1.inPos = m.inPos ∧ m1.outPos = m.outPos ∧
      m1.indat = m.indat ∧ m1.outdat = m.outdat ∧
      m1.nParams = r.nParams ∧ m1.selectedFX = r.name ∧ m1.airwin = some (r.generator ()) ∧
      m1.resetCount = wrap32 (m.resetCount + 1) := by
  obtain ⟨hB, hpq, hsel⟩ := hC
  rcases hsel with hidle | ⟨r, h0, hr, hn⟩
  · exact absurd hidle h
  · have hloop : ∃ res, nameLoop ops (r.generator ()) (List.range r.nParams.toNat)
        m.paramQuantities = .ok res := by
      rw [nameLoop_ok_iff]
      intro i hi
      simp [maxParams] at hi hn hpq ⊢
      omega
    obtain ⟨⟨pq1, qs⟩, hpq1⟩ := hloop
    obtain ⟨hlen, hqs⟩ := nameLoop_ok ops _ _ _ _ _ hpq1
    subst hqs
    have hneg : ¬ m.forceSelect < 0 := by omega
    refine ⟨{ m with
              selectedFX := r.name
              airwin := some (r.generator ())
              nParams := r.nParams
              paramQuantities := pq1
              resetCount := wrap32 (m.resetCount + 1) }, r,
      by simp only [resetAirwindowToTraced, hneg, if_false, hr, hpq1], hr, ?_, ?_,
      rfl, rfl, rfl, rfl, rfl, rfl, rfl, rfl, rfl⟩
    · obtain ⟨_, _, hin, hout, hip, hop⟩ := hB
      exact ⟨rfl, hn, hin, hout, hip, hop⟩
    · simp [hlen, hpq]

/-- One `process` call on a configured module, when its exchange does not fail spuriously on
an idle `forceSelect`: it returns, keeps the module configured with the same `forceSelect`,
logs the selection entry (if any) followed by the block-boundary calls (if the call
completes a block), and the unit receives the queries of `resetAirwindowTo` (if it ran)
followed by the same block-boundary calls. -/
theorem process_configured (ops : Airwin2RackBase F U) (fl : SampleOps F)
    (registry : List (awReg U)) (m : AW2RModule F U) (p : Ports F)
    (hC : Configured registry m) (hcas : m.forceSelect = -1 → p.casFails = false) :
    ∃ s inL inR outL outR, process ops fl registry m p = .ok s ∧ Configured registry s.next ∧
      s.next.forceSelect = m.forceSelect ∧
      s.next.inPos = (if m.inPos + 1 = block then 0 else m.inPos + 1) ∧
      s.next.outPos = (if m.inPos + 1 = block then 1 else m.outPos + 1) ∧
      s.next.resetCount = (if m.forceSelect = -1 then m.resetCount
        else wrap32 (m.resetCount + 1)) ∧
      s.calls = selectionCalls m ++ (if m.inPos + 1 = block then
        (List.range s.next.nParams.toNat).map (fun i => Call.setParameter i (p.params i)) ++
          [Call.processReplacing inL inR block outL outR] else []) ∧
      s.unitCalls = (if m.forceSelect = -1 then []
          else queryCalls (List.range s.next.nParams.toNat)) ++
        (if m.inPos + 1 = block then
        (List.range s.next.nParams.toNat).map (fun i => Call.setParameter i (p.params i)) ++
          [Call.processReplacing inL inR block outL outR] else []) := by
  by_cases h : m.forceSelect = -1
  · obtain ⟨s, inL, inR, outL, outR, hs, hB, hfs, hpq, hn, hrc, _, hip, hop, hcs, hus⟩ :=
      frameBody_step ops fl m p hC.1
    refine ⟨s, inL, inR, outL, outR, by rw [process_idle ops fl registry m p h (hcas h), hs],
      ⟨hB, by rw [hpq]; exact hC.2.1, by rw [hfs]; exact hC.2.2⟩, hfs, hip, hop, ?_, ?_, ?_⟩
    · simp [h, hrc]
    · simp [selectionCalls, h, hcs, hn]
    · simp [h, hus, hcs, hn]
  · obtain ⟨m1, r, hreset, hr, hB1, hpq1, hfs1, hip1, hop1, _, _, hn1, _, _, hrc1⟩ :=
      resetAirwindowTo_configured ops registry m hC h
    obtain ⟨s, inL, inR, outL, outR, hs, hB, hfs, hpq, hn, hrc, _, hip, hop, hcs, hus⟩ :=
      frameBody_step ops fl m1 p hB1
    refine ⟨_, inL, inR, outL, outR, process_pending ops fl registry m m1 _ p s h hreset hs,
      ⟨hB, by simp only [hpq, hpq1], by simp only [hfs, hfs1]; exact hC.2.2⟩,
      by simp only [hfs, hfs1], by simp only [hip, hip1], by simp only [hip1, hop, hop1],
      ?_, ?_, ?_⟩
    · simp [h, hrc, hrc1]
    · simp [selectionCalls, h, hcs, hn, hip1]
    · simp [h, hus, hcs, hn, hn1, hip1]

/-! ## Runs of `process` calls on a ready module -/

theorem list_length_eight (xs : List F) (h : xs.length = 2 * block) :
    ∃ x0 x1 x2 x3 x4 x5 x6 x7, xs = [x0, x1, x2, x3, x4, x5, x6, x7] := by
  match xs, h with
  | [x0, x1, x2, x3, x4, x5, x6, x7], _ => exact ⟨_, _, _, _, _, _, _, _, rfl⟩

theorem run_cons (ops : Airwin2RackBase F U) (fl : SampleOps F) (registry : List (awReg U))
    (m : AW2RModule F U) (p : Ports F) (ps : List (Ports F)) (s : Step F U)
    (h : process ops fl registry m p = .ok s) :
    run ops fl registry m (p :: ps) =
      (run ops fl registry s.next ps).map
        (fun x => (x.1, ((s.outputL, s.outputR), s.calls) :: x.2)) := by
  simp only [run, h]
  cases run ops fl registry s.next ps <;> rfl

theorem except_map_map {ε α β γ : Type} (x : Except ε α) (f : α → β) (g : β → γ) :
    (x.map f).map g = x.map (fun a => g (f a)) := by
  cases x <;> rfl

/-- A run from a ready module that returns had no spurious failure of the exchange. -/
theorem run_ok_no_spurious (ops : Airwin2RackBase F U) (fl : SampleOps F)
    (registry : List (awReg U)) :
    ∀ (ps : List (Ports F)) (m : AW2RModule F U) (res), Ready m →
      run ops fl registry m ps = .ok res → ∀ p ∈ ps, p.casFails = false
  | [], _, _, _, _ => by simp
  | p :: ps, m, res, hR, hrun => by
    have hc : p.casFails = false := by
      cases hcf : p.casFails with
      | false => rfl
      | true =>
        simp [run, process_spurious ops fl registry m p hR.1 hcf] at hrun
    obtain ⟨s, _, _, _, _, hs, hB, hfs, _⟩ := frameBody_step ops fl m p hR.2
    rw [← process_idle ops fl registry m p hR.1 hc] at hs
    rw [run_cons ops fl registry m p ps s hs] at hrun
    cases hrest : run ops fl registry s.next ps with
    | error e => simp [hrest, Except.map] at hrun
    | ok res1 =>
      have ih := run_ok_no_spurious ops fl registry ps s.next res1 ⟨by rw [hfs]; exact hR.1, hB⟩
        hrest
      intro q hq
      rcases List.mem_cons.mp hq with rfl | hq
      · exact hc
      · exact ih q hq

/-- One frame from a ready module that does not complete a block. -/
theorem run_mid (ops : Airwin2RackBase F U) (fl : SampleOps F) (registry : List (awReg U))
    (m : AW2RModule F U) (p : Ports F) (hR : Ready m)
    (h : m.inPos + 1 ≠ block) (hc : p.casFails = false) :
    ∃ l r, m.outdat[m.outPos]? = some l ∧ m.outdat[block + m.outPos]? = some r ∧
      (∀ ps, run ops fl registry m (p :: ps) =
        (run ops fl registry
          { m with
            indat := (m.indat.set m.inPos (fl.inGain p.inputL)).set (block + m.inPos)
              (fl.inGain p.inputR)
            inPos := m.inPos + 1
            outPos := m.outPos + 1 } ps).map
        (fun x => (x.1, ((fl.outGain l, fl.outGain r), []) :: x.2))) ∧
      Ready { m with
            indat := (m.indat.set m.inPos (fl.inGain p.inputL)).set (block + m.inPos)
              (fl.inGain p.inputR)
            inPos := m.inPos + 1
            outPos := m.outPos + 1 } := by
  obtain ⟨l, r, hl, hr, hs⟩ := frameBody_mid ops fl m p hR.2 h
  rw [← process_idle ops fl registry m p hR.1 hc] at hs
  refine ⟨l, r, hl, hr, fun ps => run_cons ops fl registry m p ps _ hs, ?_⟩
  obtain ⟨hfs, hu, hn, hin, hout, hip, hop⟩ := hR
  refine ⟨hfs, hu, hn, ?_, hout, ?_, ?_⟩
  · simp [hin]
  · simp [block] at *; omega
  · simp; omega

/-- One frame from a ready module that completes a block: the unit, after the parameter
loop, processes the stored block, and what it writes is the new output block. -/
theorem run_full (ops : Airwin2RackBase F U) (fl : SampleOps F) (registry : List (awReg U))
    (m : AW2RModule F U) (p : Ports F) (hR : Ready m)
    (h : m.inPos + 1 = block) (hc : p.casFails = false) :
    ∃ m4 u u1 y0 y1 y2 y3 z0 z1 z2 z3,
      m.airwin = some u ∧
      paramLoop ops p.params (List.range m.nParams.toNat) u =
        .ok (u1, (List.range m.nParams.toNat).map (fun i => Call.setParameter i (p.params i))) ∧
      [y0, y1, y2, y3] = (List.range block).map (ops.processReplacing u1
        (((m.indat.set m.inPos (fl.inGain p.inputL)).set (block + m.inPos)
          (fl.inGain p.inputR)).take block)
        ((((m.indat.set m.inPos (fl.inGain p.inputL)).set (block + m.inPos)
          (fl.inGain p.inputR)).drop block).take block) block).2.1 ∧
      [z0, z1, z2, z3] = (List.range block).map (ops.processReplacing u1
        (((m.indat.set m.inPos (fl.inGain p.inputL)).set (block + m.inPos)
          (fl.inGain p.inputR)).take block)
        ((((m.indat.set m.inPos (fl.inGain p.inputL)).set (block + m.inPos)
          (fl.inGain p.inputR)).drop block).take block) block).2.2 ∧
      Ready m4 ∧ m4.inPos = 0 ∧ m4.outPos = 1 ∧ m4.nParams = m.nParams ∧
      m4.outdat = [y0, y1, y2, y3, z0, z1, z2, z3] ∧
      ∀ ps, run ops fl registry m (p :: ps) =
        (run ops fl registry m4 ps).map
        (fun x => (x.1, ((fl.outGain y0, fl.outGain z0),
          (List.range m.nParams.toNat).map (fun i => Call.setParameter i (p.params i)) ++
            [Call.processReplacing
              (((m.indat.set m.inPos (fl.inGain p.inputL)).set (block + m.inPos)
                (fl.inGain p.inputR)).take block)
              ((((m.indat.set m.inPos (fl.inGain p.inputL)).set (block + m.inPos)
                (fl.inGain p.inputR)).drop block).take block)
              block [y0, y1, y2, y3] [z0, z1, z2, z3]]) :: x.2)) := by
  obtain ⟨u, hu⟩ := Option.isSome_iff_exists.mp hR.2.1
  obtain ⟨u1, indat2, inL, inR, u2, outL, outR, hloop, hi2, hiL, hiR, hu2, hoL, hoR, hs⟩ :=
    frameBody_full ops fl m p u hR.2 h hu
  rw [← process_idle ops fl registry m p hR.1 hc] at hs
  have e := fun ps => run_cons ops fl registry m p ps _ hs
  subst hi2 hiL hiR
  generalize hpr : ops.processReplacing u1 _ _ block = pr at *
  have hoL1 : outL = [pr.2.1 0, pr.2.1 1, pr.2.1 2, pr.2.1 3] := by rw [hoL]; rfl
  have hoR1 : outR = [pr.2.2 0, pr.2.2 1, pr.2.2 2, pr.2.2 3] := by rw [hoR]; rfl
  subst hoL1 hoR1
  refine ⟨_, u, u1, pr.2.1 0, pr.2.1 1, pr.2.1 2, pr.2.1 3, pr.2.2 0, pr.2.2 1, pr.2.2 2,
    pr.2.2 3, hu, hloop, by rw [hpr]; rfl, by rw [hpr]; rfl, ?_, ?_, ?_, ?_, ?_, e⟩
  · obtain ⟨hfs, _, hn, hin, hout, hip, hop⟩ := hR
    refine ⟨hfs, rfl, hn, ?_, ?_, ?_, ?_⟩
    · simp [hin]
    · simp [block]
    · simp [block]
    · simp
  · rfl
  · rfl
  · rfl
  · rfl

/-- Four frames from a ready module at a block start: three frames that only read the
previous output block, then the frame that completes the block. -/
theorem run_block (ops : Airwin2RackBase F U) (fl : SampleOps F) (registry : List (awReg U))
    (m : AW2RModule F U) (a0 a1 a2 a3 : Ports F)
    (hR : Ready m) (h0 : m.inPos = 0)
    (hc0 : a0.casFails = false) (hc1 : a1.casFails = false)
    (hc2 : a2.casFails = false) (hc3 : a3.casFails = false) :
    ∃ m3 m4 u u1 l0 r0 l1 r1 l2 r2 y0 y1 y2 y3 z0 z1 z2 z3,
      m.outdat[m.outPos]? = some l0 ∧ m.outdat[block + m.outPos]? = some r0 ∧
      m.outdat[m.outPos + 1]? = some l1 ∧ m.outdat[block + (m.outPos + 1)]? = some r1 ∧
      m.outdat[m.outPos + 2]? = some l2 ∧ m.outdat[block + (m.outPos + 2)]? = some r2 ∧
      run ops fl registry m [a0, a1, a2] = .ok (m3,
          [((fl.outGain l0, fl.outGain r0), []), ((fl.outGain l1, fl.outGain r1), []),
           ((fl.outGain l2, fl.outGain r2), [])]) ∧
      m3.airwin = some u ∧ m3.nParams = m.nParams ∧
      paramLoop ops a3.params (List.range m.nParams.toNat) u =
        .ok (u1, (List.range m.nParams.toNat).map (fun i => Call.setParameter i (a3.params i))) ∧
      [y0, y1, y2, y3] = (List.range block).map (ops.processReplacing u1
        [fl.inGain a0.inputL, fl.inGain a1.inputL, fl.inGain a2.inputL, fl.inGain a3.inputL]
        [fl.inGain a0.inputR, fl.inGain a1.inputR, fl.inGain a2.inputR, fl.inGain a3.inputR]
        block).2.1 ∧
      [z0, z1, z2, z3] = (List.range block).map (ops.processReplacing u1
        [fl.inGain a0.inputL, fl.inGain a1.inputL, fl.inGain a2.inputL, fl.inGain a3.inputL]
        [fl.inGain a0.inputR, fl.inGain a1.inputR, fl.inGain a2.inputR, fl.inGain a3.inputR]
        block).2.2 ∧
      Ready m4 ∧ m4.inPos = 0 ∧ m4.outPos = 1 ∧ m4.nParams = m.nParams ∧
      m4.outdat = [y0, y1, y2, y3, z0, z1, z2, z3] ∧
      ∀ rest, run ops fl registry m (a0 :: a1 :: a2 :: a3 :: rest) =
        (run ops fl registry m4 rest).map
        (fun x => (x.1,
          ((fl.outGain l0, fl.outGain r0), []) ::
          ((fl.outGain l1, fl.outGain r1), []) ::
          ((fl.outGain l2, fl.outGain r2), []) ::
          ((fl.outGain y0, fl.outGain z0),
            (List.range m.nParams.toNat).map (fun i => Call.setParameter i (a3.params i)) ++
            [Call.processReplacing
              [fl.inGain a0.inputL, fl.inGain a1.inputL, fl.inGain a2.inputL, fl.inGain a3.inputL]
              [fl.inGain a0.inputR, fl.inGain a1.inputR, fl.inGain a2.inputR, fl.inGain a3.inputR]
              block [y0, y1, y2, y3] [z0, z1, z2, z3]]) :: x.2)) := by
  obtain ⟨x0, x1, x2, x3, x4, x5, x6, x7, hx⟩ := list_length_eight m.indat hR.2.2.2.1
  obtain ⟨l0, r0, hl0, hr0, e0, R1⟩ := run_mid ops fl registry m a0 hR
    (by simp [h0, block]) hc0
  obtain ⟨l1, r1, hl1, hr1, e1, R2⟩ := run_mid ops fl registry _ a1 R1
    (by simp [h0, block]) hc1
  obtain ⟨l2, r2, hl2, hr2, e2, R3⟩ := run_mid ops fl registry _ a2 R2
    (by simp [h0, block]) hc2
  obtain ⟨m4, u, u1, y0, y1, y2, y3, z0, z1, z2, z3, hu, hloop, hys, hzs, R4, hi4, ho4, hn4,
    hd4, e3⟩ := run_full ops fl registry _ a3 R3 (by simp [h0, block]) hc3
  refine ⟨_, m4, u, u1, l0, r0, l1, r1, l2, r2, y0, y1, y2, y3, z0, z1, z2, z3,
    hl0, hr0, hl1, hr1, hl2, hr2, ?_, hu, rfl, hloop, ?_, ?_, R4, hi4, ho4, hn4, hd4, ?_⟩
  · rw [e0, e1, e2]
    rfl
  · rw [hys]
    simp only [h0, hx, block]
    rfl
  · rw [hzs]
    simp only [h0, hx, block]
    rfl
  · intro rest
    rw [e0, e1, e2, e3]
    simp only [except_map_map, h0, hx, block]
    rfl

/-- Fewer than `block` frames from a ready module at a block start: every frame only reads
the previous output block and no call is made on the unit. -/
theorem run_short (ops : Airwin2RackBase F U) (fl : SampleOps F) (registry : List (awReg U))
    (m : AW2RModule F U) (ps : List (Ports F))
    (hR : Ready m) (h0 : m.inPos = 0) (hlen : ps.length < block)
    (hs : ∀ p ∈ ps, p.casFails = false) :
    ∃ mf outs, run ops fl registry m ps = .ok (mf, outs) ∧ outs.length = ps.length ∧
      mf.inPos = ps.length ∧ mf.outPos = m.outPos + ps.length ∧
      ∀ j, j < ps.length → ∃ l r, m.outdat[m.outPos + j]? = some l ∧
        m.outdat[block + (m.outPos + j)]? = some r ∧
        outs[j]? = some ((fl.outGain l, fl.outGain r), []) := by
  match ps, hlen, hs with
  | [], _, _ =>
    exact ⟨m, [], rfl, rfl, by simp [h0], rfl, by simp⟩
  | [a0], _, hs =>
    obtain ⟨l0, r0, hl0, hr0, e0, R1⟩ := run_mid ops fl registry m a0 hR
      (by simp [h0, block]) (hs a0 (by simp))
    refine ⟨_, _, by rw [e0]; rfl, rfl, by simp [h0], rfl, ?_⟩
    intro j hj
    have hj0 : j = 0 := by simpa using hj
    subst hj0
    exact ⟨l0, r0, hl0, hr0, rfl⟩
  | [a0, a1], _, hs =>
    obtain ⟨l0, r0, hl0, hr0, e0, R1⟩ := run_mid ops fl registry m a0 hR
      (by simp [h0, block]) (hs a0 (by simp))
    obtain ⟨l1, r1, hl1, hr1, e1, R2⟩ := run_mid ops fl registry _ a1 R1
      (by simp [h0, block]) (hs a1 (by simp))
    refine ⟨_, _, by rw [e0, e1]; rfl, rfl, by simp [h0], rfl, ?_⟩
    intro j hj
    have hj2 : j < 2 := by simpa using hj
    interval_cases j
    · exact ⟨l0, r0, hl0, hr0, rfl⟩
    · exact ⟨l1, r1, hl1, hr1, rfl⟩
  | [a0, a1, a2], _, hs =>
    obtain ⟨l0, r0, hl0, hr0, e0, R1⟩ := run_mid ops fl registry m a0 hR
      (by simp [h0, block]) (hs a0 (by simp))
    obtain ⟨l1, r1, hl1, hr1, e1, R2⟩ := run_mid ops fl registry _ a1 R1
      (by simp [h0, block]) (hs a1 (by simp))
    obtain ⟨l2, r2, hl2, hr2, e2, R3⟩ := run_mid ops fl registry _ a2 R2
      (by simp [h0, block]) (hs a2 (by simp))
    refine ⟨_, _, by rw [e0, e1, e2]; rfl, rfl, by simp [h0], rfl, ?_⟩
    intro j hj
    have hj3 : j < 3 := by simpa using hj
    interval_cases j
    · exact ⟨l0, r0, hl0, hr0, rfl⟩
    · exact ⟨l1, r1, hl1, hr1, rfl⟩
    · exact ⟨l2, r2, hl2, hr2, rfl⟩
  | _ :: _ :: _ :: _ :: _, h, _ =>
    simp only [List.length_cons, block] at h
    omega

theorem processReplacingCalls_quiet (outs : List ((F × F) × List (Call F)))
    (h : ∀ j, j < outs.length → ∃ o, outs[j]? = some (o, [])) :
    processReplacingCalls outs = [] := by
  have : callsOf outs = [] := by
    induction outs with
    | nil => rfl
    | cons x xs ih =>
      obtain ⟨o, ho⟩ := h 0 (by simp)
      simp only [List.getElem?_cons_zero, Option.some.injEq] at ho
      have ih1 := ih (fun j hj => by
        obtain ⟨o1, ho1⟩ := h (j + 1) (by simpa using hj)
        exact ⟨o1, by simpa using ho1⟩)
      simp [callsOf, ho, ih1]
  simp [processReplacingCalls, this]

/-- The `processReplacing` calls of a block of four frames followed by more frames: the one
call of the fourth frame, then those of the remaining frames. -/
theorem processReplacingCalls_block (o0 o1 o2 o3 : F × F) (is : List Nat) (f : Nat → F)
    (inL inR outL outR : List F) (n : Nat) (outs : List ((F × F) × List (Call F))) :
    processReplacingCalls ((o0, []) :: (o1, []) :: (o2, []) ::
      (o3, is.map (fun i => Call.setParameter i (f i)) ++
        [Call.processReplacing inL inR n outL outR]) :: outs) =
      Call.processReplacing inL inR n outL outR :: processReplacingCalls outs := by
  have hnil : List.filter Call.isProcessReplacing
      (is.map (fun i => Call.setParameter i (f i))) = [] := by
    rw [List.filter_eq_nil_iff]
    intro c hc
    obtain ⟨i, _, rfl⟩ := List.mem_map.mp hc
    simp [Call.isProcessReplacing]
  simp [processReplacingCalls, callsOf, List.filter_append, hnil, Call.isProcessReplacing]

/-- Description of a whole run from a ready module at a block start in which no exchange
fails spuriously. The run returns with one output per frame; `inPos` and `outPos` are
functions of the number of frames; frames whose number is not a multiple of `block` make no
call; the first `block - 1` frames read the output block already in the module; and frame
`block * b + 3` (counting from `0`) calls `setParameter` for each active parameter and then
`processReplacing` on exactly the inputs of frames `block * b .. block * b + 3`; what the
unit writes in that call is what that frame and the next three emit. -/
theorem run_boundary (ops : Airwin2RackBase F U) (fl : SampleOps F)
    (registry : List (awReg U)) :
    ∀ (ps : List (Ports F)) (m : AW2RModule F U), Ready m → m.inPos = 0 →
    (∀ p ∈ ps, p.casFails = false) →
    ∃ mf outs, run ops fl registry m ps = .ok (mf, outs) ∧ outs.length = ps.length ∧
      mf.inPos = ps.length % block ∧
      mf.outPos = (if ps.length < block then m.outPos + ps.length
        else ps.length % block + 1) ∧
      (processReplacingCalls outs).length = ps.length / block ∧
      (∀ j, j < ps.length → (j + 1) % block ≠ 0 → ∃ o, outs[j]? = some (o, [])) ∧
      (∀ j, j < block - 1 → j < ps.length → ∃ l r, m.outdat[m.outPos + j]? = some l ∧
        m.outdat[block + (m.outPos + j)]? = some r ∧
        outs[j]? = some ((fl.outGain l, fl.outGain r), [])) ∧
      (∀ b, block * b + 3 < ps.length →
        ∃ a0 a1 a2 a3 mPrev outsPrev u u1 y0 y1 y2 y3 z0 z1 z2 z3,
          ps[block * b]? = some a0 ∧ ps[block * b + 1]? = some a1 ∧
          ps[block * b + 2]? = some a2 ∧ ps[block * b + 3]? = some a3 ∧
          run ops fl registry m (ps.take (block * b + 3)) = .ok (mPrev, outsPrev) ∧
          mPrev.airwin = some u ∧ mPrev.nParams = m.nParams ∧
          paramLoop ops a3.params (List.range m.nParams.toNat) u =
            .ok (u1,
              (List.range m.nParams.toNat).map (fun i => Call.setParameter i (a3.params i))) ∧
          [y0, y1, y2, y3] = (List.range block).map (ops.processReplacing u1
            [fl.inGain a0.inputL, fl.inGain a1.inputL, fl.inGain a2.inputL, fl.inGain a3.inputL]
            [fl.inGain a0.inputR, fl.inGain a1.inputR, fl.inGain a2.inputR, fl.inGain a3.inputR]
            block).2.1 ∧
          [z0, z1, z2, z3] = (List.range block).map (ops.processReplacing u1
            [fl.inGain a0.inputL, fl.inGain a1.inputL, fl.inGain a2.inputL, fl.inGain a3.inputL]
            [fl.inGain a0.inputR, fl.inGain a1.inputR, fl.inGain a2.inputR, fl.inGain a3.inputR]
            block).2.2 ∧
          outs[block * b + 3]? = some ((fl.outGain y0, fl.outGain z0),
            (List.range m.nParams.toNat).map (fun i => Call.setParameter i (a3.params i)) ++
            [Call.processReplacing
              [fl.inGain a0.inputL, fl.inGain a1.inputL, fl.inGain a2.inputL, fl.inGain a3.inputL]
              [fl.inGain a0.inputR, fl.inGain a1.inputR, fl.inGain a2.inputR, fl.inGain a3.inputR]
              block [y0, y1, y2, y3] [z0, z1, z2, z3]]) ∧
          (processReplacingCalls outs)[b]? = some (Call.processReplacing
            [fl.inGain a0.inputL, fl.inGain a1.inputL, fl.inGain a2.inputL, fl.inGain a3.inputL]
            [fl.inGain a0.inputR, fl.inGain a1.inputR, fl.inGain a2.inputR, fl.inGain a3.inputR]
            block [y0, y1, y2, y3] [z0, z1, z2, z3]) ∧
          (block * b + 4 < ps.length →
            (outs[block * b + 4]?).map Prod.fst = some (fl.outGain y1, fl.outGain z1)) ∧
          (block * b + 5 < ps.length →
            (outs[block * b + 5]?).map Prod.fst = some (fl.outGain y2, fl.outGain z2)) ∧
          (block * b + 6 < ps.length →
            (outs[block * b + 6]?).map Prod.fst = some (fl.outGain y3, fl.outGain z3)))
  | a0 :: a1 :: a2 :: a3 :: rest, m, hR, h0, hs => by
    obtain ⟨m3, m4, u, u1, l0, r0, l1, r1, l2, r2, y0, y1, y2, y3, z0, z1, z2, z3,
      hl0, hr0, hl1, hr1, hl2, hr2, hrun3, hu3, hn3, hloop, hys, hzs, R4, hi4, ho4, hn4, hd4,
      e⟩ := run_block ops fl registry m a0 a1 a2 a3 hR h0 (hs a0 (by simp)) (hs a1 (by simp))
        (hs a2 (by simp)) (hs a3 (by simp))
    obtain ⟨mf, outs, hrun, hlen, hin, hout, hcount, hquiet, hhead, hblk⟩ :=
      run_boundary ops fl registry rest m4 R4 hi4 (fun p hp => hs p (by simp [hp]))
    refine ⟨mf, _, by rw [e, hrun]; rfl, by simp [hlen], ?_, ?_, ?_, ?_, ?_, ?_⟩
    · rw [hin]
      simp only [List.length_cons, block]
      omega
    · rw [hout, ho4]
      simp only [List.length_cons, block]
      split <;> split <;> omega
    · simp only [processReplacingCalls_block, List.length_cons, hcount, block]
      omega
    · intro j hj hmod
      simp only [List.length_cons] at hj
      by_cases hj4 : j < 4
      · simp only [block] at hmod
        interval_cases j
        · exact ⟨_, rfl⟩
        · exact ⟨_, rfl⟩
        · exact ⟨_, rfl⟩
        · omega
      · obtain ⟨j1, rfl⟩ : ∃ j1, j = j1 + 4 := ⟨j - 4, by omega⟩
        obtain ⟨o, ho⟩ := hquiet j1 (by omega) (by simp only [block] at hmod ⊢; omega)
        exact ⟨o, by simpa using ho⟩
    · intro j hj _
      simp only [block] at hj
      interval_cases j
      · exact ⟨l0, r0, hl0, hr0, rfl⟩
      · exact ⟨l1, r1, hl1, hr1, rfl⟩
      · exact ⟨l2, r2, hl2, hr2, rfl⟩
    · intro b hb
      simp only [List.length_cons] at hb
      cases b with
      | zero =>
        refine ⟨a0, a1, a2, a3, m3, _, u, u1, y0, y1, y2, y3, z0, z1, z2, z3,
          by simp [block], by simp [block], by simp [block], by simp [block],
          by simpa [block] using hrun3, hu3, hn3, hloop, hys, hzs, ?_, ?_, ?_, ?_, ?_⟩
        · simp [hn4]
        · simp [processReplacingCalls_block]
        · intro h
          obtain ⟨l, r, hl, hr, ho⟩ := hhead 0 (by simp [block]) (by simp at h; omega)
          simp [hd4, ho4, block] at hl hr
          subst hl hr
          simp [ho]
        · intro h
          obtain ⟨l, r, hl, hr, ho⟩ := hhead 1 (by simp [block]) (by simp at h; omega)
          simp [hd4, ho4, block] at hl hr
          subst hl hr
          simp [ho]
        · intro h
          obtain ⟨l, r, hl, hr, ho⟩ := hhead 2 (by simp [block]) (by simp at h; omega)
          simp [hd4, ho4, block] at hl hr
          subst hl hr
          simp [ho]
      | succ b1 =>
        obtain ⟨c0, c1, c2, c3, mPrev, outsPrev, v, v1t, v0, v1, v2, v3, w0, w1, w2, w3,
          hc0, hc1, hc2, hc3, hprev, hpu, hpn, hploop, hvs, hws,
          hcall, hkth, ho1, ho2, ho3⟩ := hblk b1 (by simp only [block] at hb ⊢; omega)
        have e4 : block * (b1 + 1) = block * b1 + 4 := by simp [block]; ring
        rw [hn4] at hploop hpn hcall
        refine ⟨c0, c1, c2, c3, mPrev,
          ((fl.outGain l0, fl.outGain r0), []) ::
          ((fl.outGain l1, fl.outGain r1), []) ::
          ((fl.outGain l2, fl.outGain r2), []) ::
          ((fl.outGain y0, fl.outGain z0),
            (List.range m.nParams.toNat).map (fun i => Call.setParameter i (a3.params i)) ++
            [Call.processReplacing
              [fl.inGain a0.inputL, fl.inGain a1.inputL, fl.inGain a2.inputL, fl.inGain a3.inputL]
              [fl.inGain a0.inputR, fl.inGain a1.inputR, fl.inGain a2.inputR, fl.inGain a3.inputR]
              block [y0, y1, y2, y3] [z0, z1, z2, z3]]) :: outsPrev,
          v, v1t, v0, v1, v2, v3, w0, w1, w2, w3,
          ?_, ?_, ?_, ?_, ?_, hpu, hpn, hploop, hvs, hws, ?_, ?_, ?_, ?_, ?_⟩
        · rw [e4]; simpa using hc0
        · rw [e4, show block * b1 + 4 + 1 = (block * b1 + 1) + 4 by ring]; simpa using hc1
        · rw [e4, show block * b1 + 4 + 2 = (block * b1 + 2) + 4 by ring]; simpa using hc2
        · rw [e4, show block * b1 + 4 + 3 = (block * b1 + 3) + 4 by ring]; simpa using hc3
        · rw [e4, show block * b1 + 4 + 3 = (block * b1 + 3) + 4 by ring]
          simp only [List.take_succ_cons]
          rw [e, hprev]
          rfl
        · rw [e4, show block * b1 + 4 + 3 = (block * b1 + 3) + 4 by ring]
          simpa using hcall
        · simpa [processReplacingCalls_block] using hkth
        · intro h
          rw [e4, show block * b1 + 4 + 4 = (block * b1 + 4) + 4 by ring]
          simpa using ho1 (by rw [e4] at h; simp at h; omega)
        · intro h
          rw [e4, show block * b1 + 4 + 5 = (block * b1 + 5) + 4 by ring]
          simpa using ho2 (by rw [e4] at h; simp at h; omega)
        · intro h
          rw [e4, show block * b1 + 4 + 6 = (block * b1 + 6) + 4 by ring]
          simpa using ho3 (by rw [e4] at h; simp at h; omega)
  | [], m, hR, h0, hs => by
    obtain ⟨mf, outs, hrun, hlen, hin, hout, hj⟩ :=
      run_short ops fl registry m [] hR h0 (by simp [block]) hs
    exact ⟨mf, outs, hrun, hlen, by simp [hin, block], by simp [hout, block],
      by rw [processReplacingCalls_quiet outs (fun j hj1 => by
        obtain ⟨l, r, _, _, h⟩ := hj j (by omega); exact ⟨_, h⟩)]; simp [block],
      fun j hj1 _ => by simp at hj1, fun j _ hj1 => hj j hj1,
      fun b hb => by simp only [List.length_cons, List.length_nil, block] at hb; omega⟩
  | [a0], m, hR, h0, hs => by
    obtain ⟨mf, outs, hrun, hlen, hin, hout, hj⟩ :=
      run_short ops fl registry m [a0] hR h0 (by simp [block]) hs
    exact ⟨mf, outs, hrun, hlen, by simp [hin, block], by simp [hout, block],
      by rw [processReplacingCalls_quiet outs (fun j hj1 => by
        obtain ⟨l, r, _, _, h⟩ := hj j (by omega); exact ⟨_, h⟩)]; simp [block],
      fun j hj1 _ => by obtain ⟨l, r, _, _, h⟩ := hj j hj1; exact ⟨_, h⟩,
      fun j _ hj1 => hj j hj1,
      fun b hb => by simp only [List.length_cons, List.length_nil, block] at hb; omega⟩
  | [a0, a1], m, hR, h0, hs => by
    obtain ⟨mf, outs, hrun, hlen, hin, hout, hj⟩ :=
      run_short ops fl registry m [a0, a1] hR h0 (by simp [block]) hs
    exact ⟨mf, outs, hrun, hlen, by simp [hin, block], by simp [hout, block],
      by rw [processReplacingCalls_quiet outs (fun j hj1 => by
        obtain ⟨l, r, _, _, h⟩ := hj j (by omega); exact ⟨_, h⟩)]; simp [block],
      fun j hj1 _ => by obtain ⟨l, r, _, _, h⟩ := hj j hj1; exact ⟨_, h⟩,
      fun j _ hj1 => hj j hj1,
      fun b hb => by simp only [List.length_cons, List.length_nil, block] at hb; omega⟩
  | [a0, a1, a2], m, hR, h0, hs => by
    obtain ⟨mf, outs, hrun, hlen, hin, hout, hj⟩ :=
      run_short ops fl registry m [a0, a1, a2] hR h0 (by simp [block]) hs
    exact ⟨mf, outs, hrun, hlen, by simp [hin, block], by simp [hout, block],
      by rw [processReplacingCalls_quiet outs (fun j hj1 => by
        obtain ⟨l, r, _, _, h⟩ := hj j (by omega); exact ⟨_, h⟩)]; simp [block],
      fun j hj1 _ => by obtain ⟨l, r, _, _, h⟩ := hj j hj1; exact ⟨_, h⟩,
      fun j _ hj1 => hj j hj1,
      fun b hb => by simp only [List.length_cons, List.length_nil, block] at hb; omega⟩

/-- The constructor, when it returns, yields a ready module at a block start. -/
theorem ctor_ready (ops : Airwin2RackBase F U) (fl : SampleOps F) (registry : List (awReg U))
    (m0 : AW2RModule F U) (h : AW2RModule.ctor ops fl registry = .ok m0) :
    Ready m0 ∧ m0.inPos = 0 ∧ m0.outPos = 0 := by
  unfold AW2RModule.ctor at h
  split at h
  · cases h
  · obtain ⟨r, pq, qs, _, _, hloop, rfl⟩ := resetAirwindowTo_ok _ _ _ _ _ h
    have hlt := (nameLoop_ok_iff ops _ _ _).mp ⟨(pq, qs), hloop⟩
    have hn : r.nParams ≤ maxParams := by
      by_contra hc
      have := hlt maxParams (by simp [maxParams] at hc ⊢; omega)
      simp [AW2RModule.init] at this
    exact ⟨⟨rfl, rfl, hn, by simp [AW2RModule.init], by simp [AW2RModule.init],
      by simp [AW2RModule.init, block], by simp [AW2RModule.init]⟩, rfl, rfl⟩

/-- The constructor, when it returns, yields a configured module. -/
theorem ctor_configured (ops : Airwin2RackBase F U) (fl : SampleOps F)
    (registry : List (awReg U)) (m0 : AW2RModule F U)
    (h : AW2RModule.ctor ops fl registry = .ok m0) : Configured registry m0 := by
  obtain ⟨hR, _, _⟩ := ctor_ready ops fl registry m0 h
  refine ⟨hR.2, ?_, Or.inl hR.1⟩
  unfold AW2RModule.ctor at h
  split at h
  · cases h
  · obtain ⟨r, pq, qs, _, _, hloop, rfl⟩ := resetAirwindowTo_ok _ _ _ _ _ h
    obtain ⟨hlen, _⟩ := nameLoop_ok ops _ _ _ _ _ hloop
    simp [hlen, AW2RModule.init]

/-- Storing the index of an entry with at most `maxParams` parameters keeps a module
configured. -/
theorem requestSwap_configured (registry : List (awReg U)) (m : AW2RModule F U)
    (index : Int) (r : awReg U) (hC : Configured registry m) (h0 : 0 ≤ index)
    (hr : registry[index.toNat]? = some r) (hn : r.nParams ≤ maxParams) :
    Configured registry (requestSwap index m) :=
  ⟨hC.1, hC.2.1, Or.inr ⟨r, h0, hr, hn⟩⟩

theorem filter_setParameter_calls (is : List Nat) (f : Nat → F) :
    List.filter Call.isProcessReplacing (is.map (fun i => Call.setParameter i (f i))) = [] := by
  rw [List.filter_eq_nil_iff]
  intro c hc
  obtain ⟨i, _, rfl⟩ := List.mem_map.mp hc
  simp [Call.isProcessReplacing]

theorem setParameter_not_mem_queryCalls (i : Nat) (v : F) :
    ∀ (is : List Nat), Call.setParameter i v ∉ queryCalls is
  | [] => by simp [queryCalls]
  | j :: rest => by
    have ih := setParameter_not_mem_queryCalls i v rest
    simp [queryCalls, ih]

/-- A run from the constructed module that returns is the run described by `run_boundary`. -/
theorem run_fresh (ops : Airwin2RackBase F U) (fl : SampleOps F)
    (registry : List (awReg U)) (m0 : AW2RModule F U)
    (h : AW2RModule.ctor ops fl registry = .ok m0) (ps : List (Ports F)) :
    ((∀ p ∈ ps, p.casFails = false) → ∃ res, run ops fl registry m0 ps = .ok res) ∧
    ∀ res, run ops fl registry m0 ps = .ok res → ∀ p ∈ ps, p.casFails = false := by
  obtain ⟨hR, h0, _⟩ := ctor_ready ops fl registry m0 h
  constructor
  · intro hs
    obtain ⟨mf, outs, hrun, _⟩ := run_boundary ops fl registry ps m0 hR h0 hs
    exact ⟨_, hrun⟩
  · intro res hrun
    exact run_ok_no_spurious ops fl registry ps m0 res hR hrun

/-! ## The block buffer -/

/-- C6: on a freshly constructed module, any `n` successive `process` calls return as long
as no `compare_exchange_weak` fails spuriously (nothing is pending, so no swap is entered),
and whenever they return, `processReplacing` has been invoked exactly `n / block` times,
every time with `block` frames; call number `j + 1` invokes it once when `j + 1` is a
multiple of `block` and not at all otherwise. -/
theorem processReplacing_once_per_block (ops : Airwin2RackBase F U) (fl : SampleOps F)
    (registry : List (awReg U)) (m0 : AW2RModule F U)
    (h : AW2RModule.ctor ops fl registry = .ok m0) (ps : List (Ports F)) :
    ((∀ p ∈ ps, p.casFails = false) → ∃ res, run ops fl registry m0 ps = .ok res) ∧
    ∀ mf outs, run ops fl registry m0 ps = .ok (mf, outs) →
      outs.length = ps.length ∧
      (processReplacingCalls outs).length = ps.length / block ∧
      (∀ c ∈ processReplacingCalls outs, ∃ inL inR outL outR,
        c = Call.processReplacing inL inR block outL outR) ∧
      ∀ j o, outs[j]? = some o →
        (o.2.filter Call.isProcessReplacing).length = (if (j + 1) % block = 0 then 1 else 0) := by
  refine ⟨(run_fresh ops fl registry m0 h ps).1, ?_⟩
  intro mf outs hrun0
  have hs := (run_fresh ops fl registry m0 h ps).2 _ hrun0
  obtain ⟨hR, h0, _⟩ := ctor_ready ops fl registry m0 h
  obtain ⟨mf1, outs1, hrun, hlen, _, _, hcount, hquiet, _, hblk⟩ :=
    run_boundary ops fl registry ps m0 hR h0 hs
  rw [hrun0] at hrun
  cases hrun
  refine ⟨hlen, hcount, ?_, ?_⟩
  · intro c hc
    obtain ⟨b, hb⟩ := List.mem_iff_getElem?.mp hc
    have hbl : b < (processReplacingCalls outs).length := by
      by_contra hge
      rw [List.getElem?_eq_none (by omega)] at hb
      cases hb
    rw [hcount] at hbl
    obtain ⟨a0, a1, a2, a3, _, _, _, _, y0, y1, y2, y3, z0, z1, z2, z3, _, _, _, _, _, _, _,
      _, _, _, _, hkth, _⟩ := hblk b (by simp only [block] at hbl ⊢; omega)
    rw [hkth] at hb
    cases hb
    exact ⟨_, _, _, _, rfl⟩
  · intro j o ho
    have hj : j < ps.length := by
      by_contra hge
      rw [List.getElem?_eq_none (by omega)] at ho
      cases ho
    by_cases hmod : (j + 1) % block = 0
    · obtain ⟨b, rfl⟩ : ∃ b, j = block * b + 3 :=
        ⟨j / 4, by simp only [block] at hmod ⊢; omega⟩
      obtain ⟨a0, a1, a2, a3, _, _, _, _, y0, y1, y2, y3, z0, z1, z2, z3, _, _, _, _, _, _, _,
        _, _, _, hcall, _⟩ := hblk b hj
      rw [hcall] at ho
      cases ho
      simp [hmod, List.filter_append, filter_setParameter_calls, Call.isProcessReplacing]
    · obtain ⟨o1, ho1⟩ := hquiet j hj hmod
      rw [ho1] at ho
      cases ho
      simp [hmod]

theorem processReplacing_once_per_block_witness :
    ∃ mf outs, run probeOps intOps regAB freshAB (testFrames 12) = .ok (mf, outs) ∧
      outs.length = (testFrames 12).length ∧
      (processReplacingCalls outs).length = (testFrames 12).length / block ∧
      (∀ c ∈ processReplacingCalls outs, ∃ inL inR outL outR,
        c = Call.processReplacing inL inR block outL outR) ∧
      ∀ j o, outs[j]? = some o →
        (o.2.filter Call.isProcessReplacing).length = (if (j + 1) % block = 0 then 1 else 0) := by
  obtain ⟨⟨mf, outs⟩, hres⟩ :=
    (processReplacing_once_per_block probeOps intOps regAB freshAB rfl (testFrames 12)).1
      (by decide)
  exact ⟨mf, outs, hres,
    (processReplacing_once_per_block probeOps intOps regAB freshAB rfl (testFrames 12)).2
      mf outs hres⟩

/-- C7: on a freshly constructed module, a run of `process` calls returns as long as no
`compare_exchange_weak` fails spuriously, and whenever it returns and contains `k ≥ 1`
whole blocks: the `k`-th `processReplacing` call is made on the unit `u1` that the first
`4k - 1` calls and the parameter loop of call `4k` have left; it receives as left and right
input samples `0..3` exactly the `inGain`-scaled left and right inputs of frames
`4k-3, 4k-2, 4k-1, 4k` (positions `4k-4 .. 4k-1` of the run); the output block
`[y0, y1, y2, y3]`, `[z0, z1, z2, z3]` is what `processReplacing` of `u1` writes for those
inputs; and the output pairs emitted on frames `4k, 4k+1, 4k+2, 4k+3` (as far as the run
goes) are the `outGain`-scaled samples `0, 1, 2, 3` of that block. -/
theorem block_in_block_out (ops : Airwin2RackBase F U) (fl : SampleOps F)
    (registry : List (awReg U)) (m0 : AW2RModule F U)
    (h : AW2RModule.ctor ops fl registry = .ok m0) (ps : List (Ports F)) :
    ((∀ p ∈ ps, p.casFails = false) → ∃ res, run ops fl registry m0 ps = .ok res) ∧
    ∀ mf outs, run ops fl registry m0 ps = .ok (mf, outs) →
    ∀ k, 1 ≤ k → block * k ≤ ps.length →
    ∃ a0 a1 a2 a3 mPrev outsPrev u u1 y0 y1 y2 y3 z0 z1 z2 z3,
      ps[block * k - 4]? = some a0 ∧ ps[block * k - 3]? = some a1 ∧
      ps[block * k - 2]? = some a2 ∧ ps[block * k - 1]? = some a3 ∧
      run ops fl registry m0 (ps.take (block * k - 1)) = .ok (mPrev, outsPrev) ∧
      mPrev.airwin = some u ∧
      paramLoop ops a3.params (List.range mPrev.nParams.toNat) u =
        .ok (u1,
          (List.range mPrev.nParams.toNat).map (fun i => Call.setParameter i (a3.params i))) ∧
      [y0, y1, y2, y3] = (List.range block).map (ops.processReplacing u1
        [fl.inGain a0.inputL, fl.inGain a1.inputL, fl.inGain a2.inputL, fl.inGain a3.inputL]
        [fl.inGain a0.inputR, fl.inGain a1.inputR, fl.inGain a2.inputR, fl.inGain a3.inputR]
        block).2.1 ∧
      [z0, z1, z2, z3] = (List.range block).map (ops.processReplacing u1
        [fl.inGain a0.inputL, fl.inGain a1.inputL, fl.inGain a2.inputL, fl.inGain a3.inputL]
        [fl.inGain a0.inputR, fl.inGain a1.inputR, fl.inGain a2.inputR, fl.inGain a3.inputR]
        block).2.2 ∧
      (processReplacingCalls outs)[k - 1]? = some (Call.processReplacing
        [fl.inGain a0.inputL, fl.inGain a1.inputL, fl.inGain a2.inputL, fl.inGain a3.inputL]
        [fl.inGain a0.inputR, fl.inGain a1.inputR, fl.inGain a2.inputR, fl.inGain a3.inputR]
        block [y0, y1, y2, y3] [z0, z1, z2, z3]) ∧
      (outs[block * k - 1]?).map Prod.fst = some (fl.outGain y0, fl.outGain z0) ∧
      (block * k < ps.length →
        (outs[block * k]?).map Prod.fst = some (fl.outGain y1, fl.outGain z1)) ∧
      (block * k + 1 < ps.length →
        (outs[block * k + 1]?).map Prod.fst = some (fl.outGain y2, fl.outGain z2)) ∧
      (block * k + 2 < ps.length →
        (outs[block * k + 2]?).map Prod.fst = some (fl.outGain y3, fl.outGain z3)) := by
  refine ⟨(run_fresh ops fl registry m0 h ps).1, ?_⟩
  intro mf outs hrun0 k hk hlen
  have hs := (run_fresh ops fl registry m0 h ps).2 _ hrun0
  obtain ⟨hR, h0, _⟩ := ctor_ready ops fl registry m0 h
  obtain ⟨mf1, outs1, hrun, _, _, _, _, _, _, hblk⟩ :=
    run_boundary ops fl registry ps m0 hR h0 hs
  rw [hrun0] at hrun
  cases hrun
  obtain ⟨b, rfl⟩ : ∃ b, k = b + 1 := ⟨k - 1, by omega⟩
  obtain ⟨a0, a1, a2, a3, mPrev, outsPrev, u, u1, y0, y1, y2, y3, z0, z1, z2, z3,
    p0, p1, p2, p3, hprev, hpu, hpn, hloop, hys, hzs, hcall, hkth, ho1, ho2, ho3⟩ :=
    hblk b (by simp only [block] at hlen ⊢; omega)
  have e4 : block * (b + 1) - 4 = block * b := by simp only [block]; omega
  have e3 : block * (b + 1) - 3 = block * b + 1 := by simp only [block]; omega
  have e2 : block * (b + 1) - 2 = block * b + 2 := by simp only [block]; omega
  have e1 : block * (b + 1) - 1 = block * b + 3 := by simp only [block]; omega
  have f0 : block * (b + 1) = block * b + 4 := by simp only [block]; omega
  have f1 : block * (b + 1) + 1 = block * b + 5 := by simp only [block]; omega
  have f2 : block * (b + 1) + 2 = block * b + 6 := by simp only [block]; omega
  refine ⟨a0, a1, a2, a3, mPrev, outsPrev, u, u1, y0, y1, y2, y3, z0, z1, z2, z3,
    ?_, ?_, ?_, ?_, ?_, hpu, ?_, hys, hzs, ?_, ?_, ?_, ?_, ?_⟩
  · rw [e4]; exact p0
  · rw [e3]; exact p1
  · rw [e2]; exact p2
  · rw [e1]; exact p3
  · rw [e1]; exact hprev
  · rw [hpn]; exact hloop
  · simpa using hkth
  · rw [e1, hcall]; rfl
  · intro hl
    rw [f0] at hl ⊢
    exact ho1 hl
  · intro hl
    rw [f1] at hl ⊢
    exact ho2 hl
  · intro hl
    rw [f2] at hl ⊢
    exact ho3 hl

theorem block_in_block_out_witness :
    ∃ mf outs a0 a1 a2 a3 mPrev outsPrev u u1 y0 y1 y2 y3 z0 z1 z2 z3,
      run probeOps intOps regAB freshAB (testFrames 12) = .ok (mf, outs) ∧
      (testFrames 12)[block * 2 - 4]? = some a0 ∧ (testFrames 12)[block * 2 - 3]? = some a1 ∧
      (testFrames 12)[block * 2 - 2]? = some a2 ∧ (testFrames 12)[block * 2 - 1]? = some a3 ∧
      run probeOps intOps regAB freshAB ((testFrames 12).take (block * 2 - 1))
        = .ok (mPrev, outsPrev) ∧
      mPrev.airwin = some u ∧
      paramLoop probeOps a3.params (List.range mPrev.nParams.toNat) u =
        .ok (u1,
          (List.range mPrev.nParams.toNat).map (fun i => Call.setParameter i (a3.params i))) ∧
      [y0, y1, y2, y3] = (List.range block).map (probeOps.processReplacing u1
        [intOps.inGain a0.inputL, intOps.inGain a1.inputL, intOps.inGain a2.inputL,
          intOps.inGain a3.inputL]
        [intOps.inGain a0.inputR, intOps.inGain a1.inputR, intOps.inGain a2.inputR,
          intOps.inGain a3.inputR]
        block).2.1 ∧
      [z0, z1, z2, z3] = (List.range block).map (probeOps.processReplacing u1
        [intOps.inGain a0.inputL, intOps.inGain a1.inputL, intOps.inGain a2.inputL,
          intOps.inGain a3.inputL]
        [intOps.inGain a0.inputR, intOps.inGain a1.inputR, intOps.inGain a2.inputR,
          intOps.inGain a3.inputR]
        block).2.2 ∧
      (processReplacingCalls outs)[2 - 1]? = some (Call.processReplacing
        [intOps.inGain a0.inputL, intOps.inGain a1.inputL, intOps.inGain a2.inputL,
          intOps.inGain a3.inputL]
        [intOps.inGain a0.inputR, intOps.inGain a1.inputR, intOps.inGain a2.inputR,
          intOps.inGain a3.inputR]
        block [y0, y1, y2, y3] [z0, z1, z2, z3]) ∧
      (outs[block * 2 - 1]?).map Prod.fst = some (intOps.outGain y0, intOps.outGain z0) ∧
      (block * 2 < (testFrames 12).length →
        (outs[block * 2]?).map Prod.fst = some (intOps.outGain y1, intOps.outGain z1)) ∧
      (block * 2 + 1 < (testFrames 12).length →
        (outs[block * 2 + 1]?).map Prod.fst = some (intOps.outGain y2, intOps.outGain z2)) ∧
      (block * 2 + 2 < (testFrames 12).length →
        (outs[block * 2 + 2]?).map Prod.fst = some (intOps.outGain y3, intOps.outGain z3)) := by
  obtain ⟨⟨mf, outs⟩, hres⟩ :=
    (block_in_block_out probeOps intOps regAB freshAB rfl (testFrames 12)).1 (by decide)
  obtain ⟨a0, a1, a2, a3, mPrev, outsPrev, u, u1, y0, y1, y2, y3, z0, z1, z2, z3, hrest⟩ :=
    (block_in_block_out probeOps intOps regAB freshAB rfl (testFrames 12)).2 mf outs hres 2
      (by decide) (by decide)
  exact ⟨mf, outs, a0, a1, a2, a3, mPrev, outsPrev, u, u1, y0, y1, y2, y3, z0, z1, z2, z3,
    hres, hrest⟩

/-- C10 (amended): on a freshly constructed module any `n` successive `process` calls return
as long as no `compare_exchange_weak` fails spuriously, and whenever they return (every read
and write of the block buffer was then in range), `inPos = n % block`, hence
`0 ≤ inPos < block` and `inPos` is `0` exactly after whole blocks, while `outPos` is `n` for
`n < block` and `n % block + 1` from then on, hence `0 ≤ outPos ≤ block`. -/
theorem block_indices_after_run (ops : Airwin2RackBase F U) (fl : SampleOps F)
    (registry : List (awReg U)) (m0 : AW2RModule F U)
    (h : AW2RModule.ctor ops fl registry = .ok m0) (ps : List (Ports F)) :
    ((∀ p ∈ ps, p.casFails = false) → ∃ res, run ops fl registry m0 ps = .ok res) ∧
    ∀ mf outs, run ops fl registry m0 ps = .ok (mf, outs) →
      mf.inPos = ps.length % block ∧ mf.inPos < block ∧
      mf.outPos = (if ps.length < block then ps.length else ps.length % block + 1) ∧
      mf.outPos ≤ block := by
  refine ⟨(run_fresh ops fl registry m0 h ps).1, ?_⟩
  intro mf outs hrun0
  have hs := (run_fresh ops fl registry m0 h ps).2 _ hrun0
  obtain ⟨hR, h0, ho0⟩ := ctor_ready ops fl registry m0 h
  obtain ⟨mf1, outs1, hrun, _, hin, hout, _⟩ := run_boundary ops fl registry ps m0 hR h0 hs
  rw [hrun0] at hrun
  cases hrun
  rw [ho0] at hout
  refine ⟨hin, ?_, by simpa using hout, ?_⟩
  · rw [hin]
    exact Nat.mod_lt _ (by decide)
  · rw [hout]
    simp only [block]
    split <;> omega

theorem block_indices_after_run_witness :
    ∃ mf outs, run probeOps intOps regAB freshAB (testFrames 7) = .ok (mf, outs) ∧
      mf.inPos = (testFrames 7).length % block ∧ mf.inPos < block ∧
      mf.outPos = (if (testFrames 7).length < block then (testFrames 7).length
        else (testFrames 7).length % block + 1) ∧
      mf.outPos ≤ block := by
  obtain ⟨⟨mf, outs⟩, hres⟩ :=
    (block_indices_after_run probeOps intOps regAB freshAB rfl (testFrames 7)).1 (by decide)
  exact ⟨mf, outs, hres,
    (block_indices_after_run probeOps intOps regAB freshAB rfl (testFrames 7)).2 mf outs hres⟩

/-! ## Swaps and parameter forwarding within one call -/

/-- C5 (amended): the selection is examined at the start of every `process` call, whatever
the accumulator index. On every configured module (`inPos` anywhere in `0..3`), leaving
aside a spurious failure of the exchange while nothing is pending: when `forceSelect` holds
an index, `process` is `resetAirwindowTo(forceSelect)` applied to the module exactly as the
previous call left it (same `inPos`, same stored samples, nothing of the current frame
stored yet), followed by the frame part of `process` on the result, and its first logged
call is that `resetAirwindowTo`, the only one; when `forceSelect` is `-1` it is the frame
part alone, with no `resetAirwindowTo` call. -/
theorem process_swaps_on_entry (ops : Airwin2RackBase F U) (fl : SampleOps F)
    (registry : List (awReg U)) (m : AW2RModule F U) (p : Ports F)
    (hC : Configured registry m) (hcas : m.forceSelect = -1 → p.casFails = false) :
    ∃ m1 s1 s, m.inPos < block ∧
      (m.forceSelect = -1 → m1 = m) ∧
      (m.forceSelect ≠ -1 → resetAirwindowTo ops registry m.forceSelect m = .ok m1) ∧
      m1.inPos = m.inPos ∧ m1.indat = m.indat ∧
      frameBody ops fl m1 p = .ok s1 ∧ (∀ i, Call.resetAirwindowTo i ∉ s1.calls) ∧
      process ops fl registry m p = .ok s ∧
      s.next = s1.next ∧ s.outputL = s1.outputL ∧ s.outputR = s1.outputR ∧
      s.calls = (if m.forceSelect = -1 then s1.calls
        else Call.resetAirwindowTo m.forceSelect :: s1.calls) := by
  have hnoreset : ∀ (m1 : AW2RModule F U) (s1 : Step F U) (inL inR outL outR : List F),
      s1.calls = (if m1.inPos + 1 = block then
        (List.range m1.nParams.toNat).map (fun i => Call.setParameter i (p.params i)) ++
          [Call.processReplacing inL inR block outL outR] else []) →
      ∀ i, Call.resetAirwindowTo i ∉ s1.calls := by
    intro m1 s1 inL inR outL outR hcs i hi
    rw [hcs] at hi
    by_cases hb : m1.inPos + 1 = block
    · simp [hb] at hi
    · simp [hb] at hi
  by_cases h : m.forceSelect = -1
  · obtain ⟨s1, inL, inR, outL, outR, hs1, _, _, _, _, _, _, _, _, hcs, _⟩ :=
      frameBody_step ops fl m p hC.1
    refine ⟨m, s1, s1, hC.1.2.2.2.2.1, fun _ => rfl, fun hc => absurd h hc, rfl, rfl, hs1,
      hnoreset m s1 inL inR outL outR hcs, ?_, rfl, rfl, rfl, ?_⟩
    · rw [process_idle ops fl registry m p h (hcas h), hs1]
    · simp [h]
  · obtain ⟨m1, r, hreset, _, hB1, _, _, hip1, _, hin1, _⟩ :=
      resetAirwindowTo_configured ops registry m hC h
    obtain ⟨s1, inL, inR, outL, outR, hs1, _, _, _, _, _, _, _, _, hcs, _⟩ :=
      frameBody_step ops fl m1 p hB1
    refine ⟨m1, s1, _, hC.1.2.2.2.2.1, fun hc => absurd hc h,
      fun _ => (resetAirwindowTo_eq ops registry _ m m1).mpr ⟨_, hreset⟩, hip1, hin1, hs1,
      hnoreset m1 s1 inL inR outL outR hcs,
      process_pending ops fl registry m m1 _ p s1 h hreset hs1, rfl, rfl, rfl, ?_⟩
    simp [h]

theorem process_swaps_on_entry_witness :
    ∃ m1 s1 s, oneInPendingAB.inPos < block ∧
      (oneInPendingAB.forceSelect = -1 → m1 = oneInPendingAB) ∧
      (oneInPendingAB.forceSelect ≠ -1 →
        resetAirwindowTo probeOps regAB oneInPendingAB.forceSelect oneInPendingAB = .ok m1) ∧
      m1.inPos = oneInPendingAB.inPos ∧ m1.indat = oneInPendingAB.indat ∧
      frameBody probeOps intOps m1 (portsOf 2) = .ok s1 ∧
      (∀ i, Call.resetAirwindowTo i ∉ s1.calls) ∧
      process probeOps intOps regAB oneInPendingAB (portsOf 2) = .ok s ∧
      s.next = s1.next ∧ s.outputL = s1.outputL ∧ s.outputR = s1.outputR ∧
      s.calls = (if oneInPendingAB.forceSelect = -1 then s1.calls
        else Call.resetAirwindowTo oneInPendingAB.forceSelect :: s1.calls) :=
  process_swaps_on_entry probeOps intOps regAB oneInPendingAB (portsOf 2)
    ⟨⟨rfl, by decide, rfl, rfl, by decide, by decide⟩, rfl,
      Or.inr ⟨entryB, by decide, rfl, by decide⟩⟩
    (fun hidle => absurd hidle (by decide))

/-- C8 (as stated, refuted): the constructor over the two-entry registry yields `freshAB`;
three `process` calls and a request for entry `1` later the module is `threeInPendingAB`,
one frame short of a block; the next `process` call completes the block, and the calls the
unit receives before `processReplacing` are not only the two `setParameter` calls: the
`getParameterName` and `getParameter` calls of `resetAirwindowTo(1)` come first. -/
theorem unit_queried_before_setParameter :
    AW2RModule.ctor probeOps intOps regAB = .ok freshAB ∧
    (run probeOps intOps regAB freshAB [portsOf 1, portsOf 2, portsOf 3]).map
        (fun x => requestSwap 1 x.1) = .ok threeInPendingAB ∧
    threeInPendingAB.inPos + 1 = block ∧
    (process probeOps intOps regAB threeInPendingAB (portsOf 4)).map
        (fun s => (s.next.nParams, s.unitCalls)) =
      .ok (2, [Call.getParameterName 0, Call.getParameter 0,
        Call.getParameterName 1, Call.getParameter 1,
        Call.setParameter 0 0, Call.setParameter 1 0,
        Call.processReplacing [2, 4, 6, 8] [-2, -4, -6, -8] 4 [2, 4, 6, 8] [-2, -4, -6, -8]]) :=
  ⟨rfl, rfl, rfl, rfl⟩

/-- C8 (amended): on every configured module, leaving aside a spurious failure of the
exchange while nothing is pending, `process` returns, and the calls the unit receives are,
exactly when the call completes a block (`inPos + 1 == block`),
`setParameter(0, params[0])`, ..., `setParameter(p - 1, params[p - 1])` in that order and then
`processReplacing` with `block` frames, where `p ≤ maxParams` is the active unit's
`nParams`; they are preceded, when a selection is pending in that call, by the
`getParameterName(j)`, `getParameter(j)` calls for `j = 0 .. p - 1` that `resetAirwindowTo`
makes on the new unit. So every `setParameter(i, v)` call is made at a block boundary, has
`i < p`, and carries the value of knob `i`. -/
theorem process_forwards_active_params (ops : Airwin2RackBase F U) (fl : SampleOps F)
    (registry : List (awReg U)) (m : AW2RModule F U) (p : Ports F)
    (hC : Configured registry m) (hcas : m.forceSelect = -1 → p.casFails = false) :
    ∃ s inL inR outL outR, process ops fl registry m p = .ok s ∧
      s.next.nParams ≤ maxParams ∧
      s.unitCalls = (if m.forceSelect = -1 then []
          else queryCalls (List.range s.next.nParams.toNat)) ++
        (if m.inPos + 1 = block then
        (List.range s.next.nParams.toNat).map (fun i => Call.setParameter i (p.params i)) ++
          [Call.processReplacing inL inR block outL outR] else []) ∧
      ∀ i v, Call.setParameter i v ∈ s.unitCalls →
        m.inPos + 1 = block ∧ (i : Int) < s.next.nParams ∧ v = p.params i := by
  obtain ⟨s, inL, inR, outL, outR, hs, hC1, _, _, _, _, _, hus⟩ :=
    process_configured ops fl registry m p hC hcas
  refine ⟨s, inL, inR, outL, outR, hs, hC1.1.2.1, hus, ?_⟩
  intro i v hmem
  rw [hus] at hmem
  have hsel : Call.setParameter i v ∉ (if m.forceSelect = -1 then []
      else queryCalls (List.range s.next.nParams.toNat)) := by
    split
    · simp
    · exact setParameter_not_mem_queryCalls i v _
  by_cases hb : m.inPos + 1 = block
  · simp only [hb, if_true, List.mem_append, List.mem_map, List.mem_range,
      List.mem_singleton] at hmem
    rcases hmem with hmem | hmem | hmem
    · exact absurd hmem hsel
    · obtain ⟨j, hj, hjv⟩ := hmem
      cases hjv
      exact ⟨hb, by omega, rfl⟩
    · cases hmem
  · simp only [hb, if_false, List.append_nil] at hmem
    exact absurd hmem hsel

theorem process_forwards_active_params_witness :
    ∃ s inL inR outL outR,
      process probeOps intOps regAB threeInPendingAB (portsOf 4) = .ok s ∧
      s.next.nParams ≤ maxParams ∧
      s.unitCalls = (if threeInPendingAB.forceSelect = -1 then []
          else queryCalls (List.range s.next.nParams.toNat)) ++
        (if threeInPendingAB.inPos + 1 = block then
        (List.range s.next.nParams.toNat).map
            (fun i => Call.setParameter i ((portsOf 4).params i)) ++
          [Call.processReplacing inL inR block outL outR] else []) ∧
      ∀ i v, Call.setParameter i v ∈ s.unitCalls →
        threeInPendingAB.inPos + 1 = block ∧ (i : Int) < s.next.nParams ∧
          v = (portsOf 4).params i :=
  process_forwards_active_params probeOps intOps regAB threeInPendingAB (portsOf 4)
    ⟨⟨rfl, by decide, rfl, rfl, by decide, by decide⟩, rfl,
      Or.inr ⟨entryB, by decide, rfl, by decide⟩⟩
    (fun hidle => absurd hidle (by decide))

end Lemmas

end AW2R
